import Mathlib

/-!
# A verification development for the asynchronous connector and the session identifier

Shallow embedding of `src/utils/connector.cpp` (class `ThreadConnector`) and of the
`TcpService::SessionId` union of `src/net/TCPService.h`, followed by a model of the session
identifier allocator, whose code (`TcpService::MakeID`) is not among the sources.

Conventions of the embedding.

* A `sock` and every `int` / `int64_t` value is an `Int`.  The only arithmetic in the
  connector is `now_time - startConnectTime` on two clock readings; signed overflow is
  undefined behaviour in C++ and lies outside the model.
* `std::set<sock>` is a list of fds kept in increasing order, `std::map<sock, ConnectingInfo>`
  is a list of `(fd, info)` pairs kept in increasing key order.  The operations below are
  the container operations; that they keep the ordering (the containers' own invariant) is
  proved separately (`Sorted`).
* What the operating system and the readiness primitive answer (`ox_socket_create`,
  `connect`, `sErrno`, `ox_getnowtime`, `ox_fdset_poll`, `ox_fdset_check`, `getsockopt`) is
  an explicit argument of the operation that asks.
* The effects the connector has on the outside world (`ox_socket_create`, `ox_socket_close`,
  `mCallback`, and the requests it pops) are recorded, in program order, in `trace`.
-/

namespace Connector

/-! ## Platform constants -/

/-- Compile-time facts of the platform (`PLATFORM_WINDOWS`, `FD_SETSIZE` and the two error
codes that `pollConnectRequest` compares `sErrno` with). -/
structure Platform where
  windows : Bool
  FD_SETSIZE : Nat
  WSAEWOULDBLOCK : Int
  EINPROGRESS : Int

/-- Modelled from the spec: the constant `SOCKET_ERROR` of the socket wrapper header, which
is not among the sources; the spec calls the reported value `(-1, user id)`. -/
def SOCKET_ERROR : Int := -1

/-! ## Data -/

/-- The value type of `mConnectingInfos` (fields as `connector.cpp` uses them). -/
structure ConnectingInfo where
  startConnectTime : Int
  uid : Int
  timeout : Int
deriving DecidableEq, Repr

/-- A connect request, `AsyncConnectAddr(ip, port, ms, uid)`. -/
structure AsyncConnectAddr where
  ip : String
  port : Int
  timeout : Int
  uid : Int
deriving DecidableEq, Repr

/-- An effect of the connector on the outside world. -/
inductive Event where
  | pop (addr : AsyncConnectAddr)
  | create (fd : Int)
  | close (fd : Int)
  | callback (fd : Int) (uid : Int)
deriving DecidableEq, Repr

/-- The members of `ThreadConnector` that the run loop reads and writes, and the record of
its effects. -/
structure ThreadConnector where
  mConnectRequests : List AsyncConnectAddr
  mConnectingInfos : List (Int × ConnectingInfo)
  mConnectingFds : List Int
  mFDSet : List Int
  trace : List Event
deriving DecidableEq, Repr

/-- The state the constructor leaves: every container empty, nothing done yet. -/
def ThreadConnector.init : ThreadConnector :=
  { mConnectRequests := [], mConnectingInfos := [], mConnectingFds := [], mFDSet := [],
    trace := [] }

/-! ## Reading the trace -/

/-- The arguments of the `mCallback` invocations, in order. -/
def callbacks : List Event → List (Int × Int)
  | [] => []
  | Event.callback fd uid :: t => (fd, uid) :: callbacks t
  | _ :: t => callbacks t

/-- The fds passed to `ox_socket_close`, in order. -/
def closed : List Event → List Int
  | [] => []
  | Event.close fd :: t => fd :: closed t
  | _ :: t => closed t

/-- The requests popped from the queue, in order. -/
def popped : List Event → List AsyncConnectAddr
  | [] => []
  | Event.pop a :: t => a :: popped t
  | _ :: t => popped t

/-- The sockets `ox_socket_create` really created (results other than `SOCKET_ERROR`). -/
def created : List Event → List Int
  | [] => []
  | Event.create fd :: t => if fd = SOCKET_ERROR then created t else fd :: created t
  | _ :: t => created t

/-! ## The containers -/

/-- The method `std::set<sock>::insert`. -/
def setInsert (x : Int) : List Int → List Int
  | [] => [x]
  | y :: ys => if x < y then x :: y :: ys else if x = y then y :: ys else y :: setInsert x ys

/-- The method `std::set<sock>::erase(fd)`. -/
def setErase (l : List Int) (x : Int) : List Int := l.filter (fun y => y ≠ x)

/-- The assignment `m[k] = v` on a `std::map`. -/
def mapAssign (k : Int) (v : ConnectingInfo) :
    List (Int × ConnectingInfo) → List (Int × ConnectingInfo)
  | [] => [(k, v)]
  | (k', v') :: m =>
    if k < k' then (k, v) :: (k', v') :: m
    else if k = k' then (k, v) :: m
    else (k', v') :: mapAssign k v m

/-- The method `std::map::find`: the value stored under `k`, if any. -/
def mapFind (m : List (Int × ConnectingInfo)) (k : Int) : Option ConnectingInfo :=
  (m.find? (fun e => e.1 = k)).map Prod.snd

/-- The method `std::map::erase(it)` for the iterator of key `k`. -/
def mapErase (m : List (Int × ConnectingInfo)) (k : Int) : List (Int × ConnectingInfo) :=
  m.filter (fun e => e.1 ≠ k)

/-- The keys of a map, in iteration order. -/
def keys (m : List (Int × ConnectingInfo)) : List Int := m.map Prod.fst

/-- The ordering invariant of `std::set` / of the keys of `std::map`: strictly increasing. -/
def Sorted (l : List Int) : Prop := l.Pairwise (fun a b => a < b)

instance (l : List Int) : Decidable (Sorted l) := by unfold Sorted; infer_instance

/-- The call `ox_fdset_add(fdset, fd, WriteCheck | ErrorCheck)`. -/
def ox_fdset_add (fdset : List Int) (fd : Int) : List Int := setInsert fd fdset

/-- The call `ox_fdset_del(fdset, fd, WriteCheck | ErrorCheck)`. -/
def ox_fdset_del (fdset : List Int) (fd : Int) : List Int := setErase fdset fd

/-! ## `checkTimeout` (connector.cpp 246-271) -/

/-- The body of the sweep for one entry of the map. -/
def checkTimeoutStep (now_time : Int) (s : ThreadConnector) (e : Int × ConnectingInfo) :
    ThreadConnector :=
  if now_time - e.2.startConnectTime ≥ e.2.timeout then
    let fd := e.1
    let uid := e.2.uid
    { s with
      mFDSet := ox_fdset_del s.mFDSet fd
      mConnectingFds := setErase s.mConnectingFds fd
      mConnectingInfos := mapErase s.mConnectingInfos fd
      trace := s.trace ++ [Event.close fd, Event.callback SOCKET_ERROR uid] }
  else s

/-- The sweep over the entries the map had when the loop started (erasing the current
entry leaves the iterator of the following ones valid). -/
def checkTimeoutLoop (now_time : Int) :
    List (Int × ConnectingInfo) → ThreadConnector → ThreadConnector
  | [], s => s
  | e :: rest, s => checkTimeoutLoop now_time rest (checkTimeoutStep now_time s e)

/-- The method `ThreadConnector::checkTimeout`, `now_time` being what `ox_getnowtime()`
returns. -/
def checkTimeout (now_time : Int) (s : ThreadConnector) : ThreadConnector :=
  checkTimeoutLoop now_time s.mConnectingInfos s

/-- Whether an entry has reached its timeout at `now_time`. -/
def expired (now_time : Int) (e : Int × ConnectingInfo) : Bool :=
  decide (now_time - e.2.startConnectTime ≥ e.2.timeout)

/-- The events of one expiry. -/
def expiryEvents (e : Int × ConnectingInfo) : List Event :=
  [Event.close e.1, Event.callback SOCKET_ERROR e.2.uid]

/-! ## `checkConnectStatus` (connector.cpp 59-147) -/

/-- What the readiness primitive and `getsockopt` answer during one `checkConnectStatus`:
the return value of `ox_fdset_poll`, the fds flagged `ErrorCheck` and `WriteCheck` (on
Windows the `fd_array` of the two result sets), and for each fd what
`getsockopt(fd, SOL_SOCKET, SO_ERROR, ..)` gives: `none` when it returns `-1`, else the
value it stores in `error`. -/
structure PollResult where
  ret : Int
  errorResult : List Int
  writeResult : List Int
  getsockopt : Int → Option Int

/-- The call `ox_fdset_check(fdset, fd, ErrorCheck)`. -/
def checkError (r : PollResult) (fd : Int) : Bool := decide (fd ∈ r.errorResult)

/-- The call `ox_fdset_check(fdset, fd, WriteCheck)`. -/
def checkWrite (r : PollResult) (fd : Int) : Bool := decide (fd ∈ r.writeResult)

/-- The method `ThreadConnector::isConnectSuccess`. -/
def isConnectSuccess (r : PollResult) (clientfd : Int) : Bool :=
  if checkWrite r clientfd then
    match r.getsockopt clientfd with
    | some error => decide (error = 0)
    | none => false
  else false

/-- The two local sets `complete_fds` and `failed_fds`. -/
structure Collected where
  complete_fds : List Int
  failed_fds : List Int
deriving DecidableEq, Repr

/-- Body of the loop over `error_result->fd_array` (Windows branch). -/
def collectErrorStep (acc : Collected) (clientfd : Int) : Collected :=
  { complete_fds := setInsert clientfd acc.complete_fds
    failed_fds := setInsert clientfd acc.failed_fds }

/-- Body of the loop over `write_result->fd_array` (Windows branch). -/
def collectWriteStep (r : PollResult) (acc : Collected) (clientfd : Int) : Collected :=
  { complete_fds := setInsert clientfd acc.complete_fds
    failed_fds :=
      if !isConnectSuccess r clientfd then setInsert clientfd acc.failed_fds
      else acc.failed_fds }

/-- Body of the loop over `mConnectingFds` (the other branch; its `push_back` on the set
`complete_fds` is read as `insert`). -/
def collectFdStep (r : PollResult) (acc : Collected) (clientfd : Int) : Collected :=
  if checkError r clientfd then
    { complete_fds := setInsert clientfd acc.complete_fds
      failed_fds := setInsert clientfd acc.failed_fds }
  else if checkWrite r clientfd then
    { complete_fds := setInsert clientfd acc.complete_fds
      failed_fds :=
        if !isConnectSuccess r clientfd then setInsert clientfd acc.failed_fds
        else acc.failed_fds }
  else acc

/-- The first half of `checkConnectStatus`: filling `complete_fds` and `failed_fds`. -/
def collect (P : Platform) (r : PollResult) (s : ThreadConnector) : Collected :=
  if P.windows then
    r.writeResult.foldl (collectWriteStep r)
      (r.errorResult.foldl collectErrorStep { complete_fds := [], failed_fds := [] })
  else
    s.mConnectingFds.foldl (collectFdStep r) { complete_fds := [], failed_fds := [] }

/-- Body of the loop `for (auto fd : complete_fds)`. -/
def completeStep (failed_fds : List Int) (s : ThreadConnector) (fd : Int) : ThreadConnector :=
  let s1 := { s with mFDSet := ox_fdset_del s.mFDSet fd }
  let s2 :=
    match mapFind s1.mConnectingInfos fd with
    | some ci =>
      if fd ∈ failed_fds then
        { s1 with
          trace := s1.trace ++ [Event.close fd, Event.callback (-1) ci.uid]
          mConnectingInfos := mapErase s1.mConnectingInfos fd }
      else
        { s1 with
          trace := s1.trace ++ [Event.callback fd ci.uid]
          mConnectingInfos := mapErase s1.mConnectingInfos fd }
    | none => s1
  { s2 with mConnectingFds := setErase s2.mConnectingFds fd }

/-- The method `ThreadConnector::checkConnectStatus`. -/
def checkConnectStatus (P : Platform) (r : PollResult) (s : ThreadConnector) :
    ThreadConnector :=
  if r.ret ≤ 0 then s
  else
    let c := collect P r s
    c.complete_fds.foldl (completeStep c.failed_fds) s

/-! ## `pollConnectRequest` (connector.cpp 167-244) -/

/-- What the operating system answers while one popped request is handled: the result of
`ox_socket_create`, the return value of `connect` (asked only when a socket was created),
the value of `sErrno` after it, and the reading of `ox_getnowtime`. -/
structure ConnectResp where
  sock : Int
  n : Int
  sErrno : Int
  now : Int
deriving DecidableEq, Repr

/-- The local `check_error` of `pollConnectRequest`. -/
def check_error (P : Platform) : Int :=
  if P.windows then P.WSAEWOULDBLOCK else P.EINPROGRESS

/-- The locals of the loop body that survive the `connect` block. -/
structure Attempt where
  addToFDSet : Bool
  connectSuccess : Bool
  clientfd : Int
  state : ThreadConnector

/-- The block of the loop body from `ox_socket_create` to the end of
`if (clientfd != SOCKET_ERROR)`. -/
def attempt (P : Platform) (r : ConnectResp) (addr : AsyncConnectAddr) (s : ThreadConnector) :
    Attempt :=
  let clientfd := r.sock
  let s := { s with trace := s.trace ++ [Event.create clientfd] }
  if clientfd ≠ SOCKET_ERROR then
    if r.n < 0 then
      if check_error P ≠ r.sErrno then
        { addToFDSet := false, connectSuccess := false, clientfd := SOCKET_ERROR
          state := { s with trace := s.trace ++ [Event.close clientfd] } }
      else
        let ci : ConnectingInfo :=
          { startConnectTime := r.now, uid := addr.uid, timeout := addr.timeout }
        { addToFDSet := true, connectSuccess := false, clientfd := clientfd
          state :=
            { s with
              mConnectingInfos := mapAssign clientfd ci s.mConnectingInfos
              mConnectingFds := setInsert clientfd s.mConnectingFds
              mFDSet := ox_fdset_add s.mFDSet clientfd } }
    else if r.n = 0 then
      { addToFDSet := false, connectSuccess := true, clientfd := clientfd, state := s }
    else
      { addToFDSet := false, connectSuccess := false, clientfd := clientfd, state := s }
  else
    { addToFDSet := false, connectSuccess := false, clientfd := clientfd, state := s }

/-- The body of the `while` loop for one popped request `addr`. -/
def pollOne (P : Platform) (r : ConnectResp) (addr : AsyncConnectAddr) (s : ThreadConnector) :
    ThreadConnector :=
  let a := attempt P r addr s
  if a.connectSuccess then
    { a.state with trace := a.state.trace ++ [Event.callback a.clientfd addr.uid] }
  else if !a.addToFDSet then
    { a.state with trace := a.state.trace ++ [Event.callback SOCKET_ERROR addr.uid] }
  else a.state

/-- The `while (mConnectingFds.size() < FD_SETSIZE)` loop.  The list is the request queue
in the order `PopBack` delivers it; `env i` is what the operating system answers for the
`i`-th request popped from now on.  The loop ends when the cap is reached or the queue is
empty, and the requests not popped go back to `mConnectRequests`. -/
def pollLoop (P : Platform) :
    (Nat → ConnectResp) → List AsyncConnectAddr → ThreadConnector → ThreadConnector
  | _, [], s => { s with mConnectRequests := [] }
  | env, addr :: rest, s =>
    if s.mConnectingFds.length < P.FD_SETSIZE then
      pollLoop P (fun i => env (i + 1)) rest
        (pollOne P (env 0) addr { s with trace := s.trace ++ [Event.pop addr] })
    else { s with mConnectRequests := (addr :: rest).reverse }

/-- Modelled from the spec: `MsgQueue::SyncRead` of `msgqueue.h`, which is not among the
sources (the spec keeps the message-queue primitive out of scope): it makes the requests
that other threads have pushed, `arrived`, readable; they are popped after the ones that
were readable before. -/
def SyncRead (arrived : List AsyncConnectAddr) (q : List AsyncConnectAddr) :
    List AsyncConnectAddr :=
  arrived ++ q

/-- The method `ThreadConnector::pollConnectRequest`.  `PopBack` takes the last element of
the queue. -/
def pollConnectRequest (P : Platform) (arrived : List AsyncConnectAddr)
    (env : Nat → ConnectResp) (s : ThreadConnector) : ThreadConnector :=
  pollLoop P env (SyncRead arrived s.mConnectRequests).reverse s

/-! ## `destroy` (connector.cpp 41-57) -/

/-- The method `ThreadConnector::destroy`.  Joining the thread lets `run` leave its loop,
which deletes the readiness set (`ox_fdset_delete(mFDSet); mFDSet = nullptr`, lines
163-164; a connector never started has none): no fd is registered afterwards.  Then the
three containers are cleared.  Nothing is closed and `mCallback` is not invoked. -/
def destroy (s : ThreadConnector) : ThreadConnector :=
  { s with mFDSet := [], mConnectRequests := [], mConnectingInfos := [], mConnectingFds := [] }

/-! ## Runs of the connector -/

/-- One operation of the connector together with what its environment answers. -/
inductive Op where
  | checkConnectStatus (r : PollResult)
  | pollConnectRequest (arrived : List AsyncConnectAddr) (env : Nat → ConnectResp)
  | checkTimeout (now_time : Int)
  | destroy

/-- Performing one operation. -/
def step (P : Platform) (s : ThreadConnector) : Op → ThreadConnector
  | Op.checkConnectStatus r => checkConnectStatus P r s
  | Op.pollConnectRequest arrived env => pollConnectRequest P arrived env s
  | Op.checkTimeout now_time => checkTimeout now_time s
  | Op.destroy => destroy s

/-- Performing a sequence of operations. -/
def runOps (P : Platform) (s : ThreadConnector) (ops : List Op) : ThreadConnector :=
  ops.foldl (step P) s

/-- One turn of the `while (mIsRun)` loop of `ThreadConnector::run` (the wait in
`mThreadEventloop.loop(10)` changes nothing of the state): `checkConnectStatus(mFDSet, 0)`,
`pollConnectRequest()`, `checkTimeout()`. -/
def runIteration (P : Platform) (r : PollResult) (arrived : List AsyncConnectAddr)
    (env : Nat → ConnectResp) (now_time : Int) (s : ThreadConnector) : ThreadConnector :=
  checkTimeout now_time (pollConnectRequest P arrived env (checkConnectStatus P r s))

/-- Whether an operation is one of the three of the run loop. -/
def Op.isRunLoop : Op → Bool
  | Op.destroy => false
  | _ => true

/-! ## Assumptions on the operating system -/

/-- Along the loop of `pollConnectRequest`, every socket that `ox_socket_create` returns is
not, at that moment, a key of the connecting map. -/
def pollFresh (P : Platform) :
    (Nat → ConnectResp) → List AsyncConnectAddr → ThreadConnector → Bool
  | _, [], _ => true
  | env, addr :: rest, s =>
    if s.mConnectingFds.length < P.FD_SETSIZE then
      (decide ((env 0).sock = SOCKET_ERROR) || decide ((env 0).sock ∉ keys s.mConnectingInfos))
        && pollFresh P (fun i => env (i + 1)) rest
            (pollOne P (env 0) addr { s with trace := s.trace ++ [Event.pop addr] })
    else true

/-- The assumption `pollFresh` for one operation performed in state `s`. -/
def opFresh (P : Platform) (s : ThreadConnector) : Op → Bool
  | Op.pollConnectRequest arrived env =>
    pollFresh P env (SyncRead arrived s.mConnectRequests).reverse s
  | _ => true

/-- The assumption `pollFresh` along a run. -/
def runFresh (P : Platform) : ThreadConnector → List Op → Bool
  | _, [] => true
  | s, o :: ops => opFresh P s o && runFresh P (step P s o) ops

/-- In this operation `connect` returns only `0` or a negative value. -/
def connectReturnsOK : Op → Prop
  | Op.pollConnectRequest _ env => ∀ i, (env i).n ≤ 0
  | _ => True

/-! ## Sample inputs -/

/-- A platform with a readiness-set cap of two (the `select` branch is not the Windows one). -/
def samplePlatform : Platform :=
  { windows := false, FD_SETSIZE := 2, WSAEWOULDBLOCK := 10035, EINPROGRESS := 115 }

/-- The Windows variant of `samplePlatform`. -/
def sampleWindows : Platform :=
  { windows := true, FD_SETSIZE := 2, WSAEWOULDBLOCK := 10035, EINPROGRESS := 115 }

/-- Three connect requests. -/
def sampleRequests : List AsyncConnectAddr :=
  [{ ip := "10.0.0.3", port := 80, timeout := 300, uid := 33 },
   { ip := "10.0.0.2", port := 80, timeout := 300, uid := 22 },
   { ip := "10.0.0.1", port := 80, timeout := 500, uid := 11 }]

/-- A connector with two connects in flight, started at time 1000 on fds 5 and 6, and one
request still queued. -/
def sampleState : ThreadConnector :=
  { mConnectRequests := [{ ip := "10.0.0.3", port := 80, timeout := 300, uid := 33 }]
    mConnectingInfos :=
      [(5, { startConnectTime := 1000, uid := 11, timeout := 500 }),
       (6, { startConnectTime := 1000, uid := 22, timeout := 300 })]
    mConnectingFds := [5, 6]
    mFDSet := [5, 6]
    trace :=
      [Event.pop { ip := "10.0.0.1", port := 80, timeout := 500, uid := 11 }, Event.create 5,
       Event.pop { ip := "10.0.0.2", port := 80, timeout := 300, uid := 22 }, Event.create 6] }

/-- The events of one completed connect: a failed one is closed and reported as `-1`, a
successful one is handed over. -/
def completeEvents (failed_fds : List Int) (e : Int × ConnectingInfo) : List Event :=
  if e.1 ∈ failed_fds then [Event.close e.1, Event.callback (-1) e.2.uid]
  else [Event.callback e.1 e.2.uid]

/-- A poll answer in which fd 5 is writable with `SO_ERROR` 0 and fd 6 is both errored and
writable. -/
def samplePoll : PollResult :=
  { ret := 2, errorResult := [6], writeResult := [5, 6], getsockopt := fun _ => some 0 }

/-! ## Invariants -/

/-- The three in-flight records agree: the keys of the connecting map are strictly
increasing (the invariant of `std::map`), they are the in-flight fd set, which is the set
of registered fds, and `SOCKET_ERROR` is not among them. -/
def InSync (s : ThreadConnector) : Prop :=
  Sorted (keys s.mConnectingInfos) ∧
  keys s.mConnectingInfos = s.mConnectingFds ∧
  s.mConnectingFds = s.mFDSet ∧
  SOCKET_ERROR ∉ keys s.mConnectingInfos

/-- The multiset of uids passed to the result callback. -/
def uidsReported (t : List Event) : Multiset Int :=
  (((callbacks t).map Prod.snd : List Int) : Multiset Int)

/-- The multiset of uids held in the connecting map. -/
def uidsInFlight (m : List (Int × ConnectingInfo)) : Multiset Int :=
  ((m.map (fun e => e.2.uid) : List Int) : Multiset Int)

/-- The multiset of uids of the requests popped from the queue. -/
def uidsPopped (t : List Event) : Multiset Int :=
  (((popped t).map (fun a => a.uid) : List Int) : Multiset Int)

/-- The fds handed to the result callback as a success (a first argument other than the
failure value `SOCKET_ERROR`, which is `-1`). -/
def handed (t : List Event) : List Int :=
  ((callbacks t).filter (fun c => decide (c.1 ≠ SOCKET_ERROR))).map Prod.fst

/-- Whether the event `e`, coming right after `prev`, respects "a failure is reported only
after the socket is closed": a callback with the failure value must come right after an
`ox_socket_close`, or right after an `ox_socket_create` that returned `SOCKET_ERROR`. -/
def reportOK (prev : Option Event) (e : Event) : Bool :=
  match e with
  | Event.callback fd _ =>
    if fd = SOCKET_ERROR then
      match prev with
      | some (Event.close _) => true
      | some (Event.create c) => decide (c = SOCKET_ERROR)
      | _ => false
    else true
  | _ => true

/-- Every event of the trace respects `reportOK`, `prev` being the event before the
first. -/
def closedBeforeFailure : Option Event → List Event → Bool
  | _, [] => true
  | prev, e :: t => reportOK prev e && closedBeforeFailure (some e) t

/-- An operating system that hands out the sockets 5, 6, 7, .. and whose `connect` is
always in progress (`sErrno` is `EINPROGRESS` of `samplePlatform`), at time 1000. -/
def sampleEnv : Nat → ConnectResp :=
  fun i => { sock := 5 + i, n := -1, sErrno := 115, now := 1000 }

/-- One iteration of the run loop: three requests arrive, two are started (the cap of
`samplePlatform` is two), one completes and the other times out. -/
def sampleOps : List Op :=
  [Op.pollConnectRequest sampleRequests sampleEnv,
   Op.checkConnectStatus
     { ret := 1, errorResult := [], writeResult := [5], getsockopt := fun _ => some 0 },
   Op.checkTimeout 1300]

/-- A group of events that respects `reportOK` whatever came before it. -/
def SelfContained (evs : List Event) : Prop :=
  ∀ prev : Option Event, closedBeforeFailure prev evs = true

/-- The socket balance: the sockets created so far are, counted with multiplicity, the
keys of the connecting map, the fds handed over as successes, and the fds closed. -/
def SocketsBalanced (s : ThreadConnector) : Prop :=
  ((created s.trace : List Int) : Multiset Int)
    = ((keys s.mConnectingInfos : List Int) : Multiset Int)
      + ((handed s.trace : List Int) : Multiset Int)
      + ((closed s.trace : List Int) : Multiset Int)

end Connector

/-! # The session identifier (`TcpService::SessionId`, TCPService.h 151-161)

The union overlays the 64-bit `id` with the struct `data` of a `uint16_t`, a `uint16_t` and
a `uint32_t`.  With the natural alignment of these types the members of `data` sit at byte
offsets 0, 2 and 4 and fill the eight bytes of `id`.  The storage of the union is modelled
as its list of eight bytes; the byte order of the machine is a parameter. -/

namespace TcpService

/-- The `n` bytes of the unsigned value `v` (reduced modulo `256 ^ n`, as a store to an
unsigned integer of that width does), least significant byte first. -/
def leBytes : Nat → Nat → List Nat
  | 0, _ => []
  | n + 1, v => v % 256 :: leBytes n (v / 256)

/-- The unsigned value of a list of bytes, least significant byte first. -/
def ofLeBytes : List Nat → Nat
  | [] => 0
  | b :: bs => b + 256 * ofLeBytes bs

/-- Storing an unsigned integer of `n` bytes in memory. -/
def store (bigEndian : Bool) (n : Nat) (v : Nat) : List Nat :=
  if bigEndian then (leBytes n v).reverse else leBytes n v

/-- Loading an unsigned integer from its bytes in memory. -/
def load (bigEndian : Bool) (bytes : List Nat) : Nat :=
  if bigEndian then ofLeBytes bytes.reverse else ofLeBytes bytes

/-- The member `data` of the union. -/
structure SessionIdData where
  loopIndex : Nat
  index : Nat
  iid : Nat
deriving DecidableEq, Repr

/-- The bytes of the union after its three `data` fields are written. -/
def SessionId.ofData (bigEndian : Bool) (d : SessionIdData) : List Nat :=
  store bigEndian 2 d.loopIndex ++ store bigEndian 2 d.index ++ store bigEndian 4 d.iid

/-- The value of a two's complement `int64_t` with the unsigned bit pattern `n`. -/
def toInt64 (n : Nat) : Int :=
  if n < 2 ^ 63 then (n : Int) else (n : Int) - 2 ^ 64

/-- Reading the member `id` of the union. -/
def SessionId.id (bigEndian : Bool) (bytes : List Nat) : Int :=
  toInt64 (load bigEndian bytes)

/-- The bytes of the union after its member `id` is written. -/
def SessionId.ofId (bigEndian : Bool) (id : Int) : List Nat :=
  store bigEndian 8 (id % 2 ^ 64).toNat

/-- Reading the three fields of the member `data` of the union. -/
def SessionId.data (bigEndian : Bool) (bytes : List Nat) : SessionIdData :=
  { loopIndex := load bigEndian (bytes.take 2)
    index := load bigEndian ((bytes.drop 2).take 2)
    iid := load bigEndian ((bytes.drop 4).take 4) }

/-- Packing a triple into an id: write `data`, read `id`. -/
def pack (bigEndian : Bool) (d : SessionIdData) : Int :=
  SessionId.id bigEndian (SessionId.ofData bigEndian d)

/-- Unpacking an id: write `id`, read `data`. -/
def unpack (bigEndian : Bool) (id : Int) : SessionIdData :=
  SessionId.data bigEndian (SessionId.ofId bigEndian id)

/-- The fields fit their widths: 16, 16 and 32 bits. -/
def SessionIdData.InRange (d : SessionIdData) : Prop :=
  d.loopIndex < 65536 ∧ d.index < 65536 ∧ d.iid < 2 ^ 32

instance (d : SessionIdData) : Decidable d.InRange := by
  unfold SessionIdData.InRange; infer_instance

/-! ## The session identifier allocator

`TcpService::MakeID` and the `TypeIDS` table behind `mIds` are declared in `TCPService.h`;
their code is not among the sources.  The allocator below follows the specification
(sections 3 and 4.1). -/

/-- Modelled from the spec: a slot of the per-loop channel table, which "holds either free
or a live channel pointer plus its current generation" (`TypeIDS` is not among the
sources).  `channel = none` is a free slot. -/
structure Slot where
  channel : Option Nat
  generation : Nat
deriving DecidableEq, Repr

/-- Modelled from the spec: the session identifier allocator, "a per-loop slot table with
generation counters" and, per loop, "a free-list [that] links empty slots" (the code
behind `mIds` and `MakeID` is not among the sources).  `slots l i` is slot `i` of loop `l`,
for `l < numLoops` and `i < capacity`; `free l` is the free-list of loop `l`, head
first. -/
structure Allocator where
  numLoops : Nat
  capacity : Nat
  slots : Nat → Nat → Slot
  free : Nat → List Nat

/-- Modelled from the spec: the allocator of a service that has just started its loops
(the code of `TcpService` is not among the sources): every slot free, generation 0. -/
def Allocator.init (numLoops capacity : Nat) : Allocator :=
  { numLoops := numLoops
    capacity := capacity
    slots := fun _ _ => { channel := none, generation := 0 }
    free := fun _ => List.range capacity }

end TcpService

namespace Connector

/-! ## Theorems -/

theorem callbacks_append (a b : List Event) : callbacks (a ++ b) = callbacks a ++ callbacks b := by
  induction a with
  | nil => rfl
  | cons e t ih => cases e <;> simp [callbacks, ih]

theorem closed_append (a b : List Event) : closed (a ++ b) = closed a ++ closed b := by
  induction a with
  | nil => rfl
  | cons e t ih => cases e <;> simp [closed, ih]

theorem popped_append (a b : List Event) : popped (a ++ b) = popped a ++ popped b := by
  induction a with
  | nil => rfl
  | cons e t ih => cases e <;> simp [popped, ih]

theorem created_append (a b : List Event) : created (a ++ b) = created a ++ created b := by
  induction a with
  | nil => rfl
  | cons e t ih =>
    cases e <;> simp [created, ih]
    split <;> simp

theorem checkTimeoutLoop_eq (now : Int) (l : List (Int × ConnectingInfo)) :
    ∀ s : ThreadConnector, checkTimeoutLoop now l s =
      { mConnectRequests := s.mConnectRequests
        mConnectingInfos :=
          s.mConnectingInfos.filter (fun e => e.1 ∉ keys (l.filter (expired now)))
        mConnectingFds := s.mConnectingFds.filter (fun x => x ∉ keys (l.filter (expired now)))
        mFDSet := s.mFDSet.filter (fun x => x ∉ keys (l.filter (expired now)))
        trace := s.trace ++ (l.filter (expired now)).flatMap expiryEvents } := by
  induction l with
  | nil => intro s; simp [checkTimeoutLoop, keys]
  | cons e rest ih =>
    intro s
    rw [checkTimeoutLoop, ih]
    by_cases h : now - e.2.startConnectTime ≥ e.2.timeout
    · have he : expired now e = true := by simp [expired, h]
      simp only [checkTimeoutStep, h, he, List.filter_cons, keys, mapErase, setErase,
        ox_fdset_del, List.filter_filter, if_true, List.flatMap_cons, List.map_cons,
        List.append_assoc, expiryEvents, ThreadConnector.mk.injEq, true_and]
      refine ⟨?_, ?_, ?_, ?_⟩
      · apply List.filter_congr; intro x _; by_cases hx : x.1 = e.1 <;> simp [hx]
      · apply List.filter_congr; intro x _; by_cases hx : x = e.1 <;> simp [hx]
      · apply List.filter_congr; intro x _; by_cases hx : x = e.1 <;> simp [hx]
      · simp
    · have he : expired now e = false := by simp [expired, h]
      simp [checkTimeoutStep, h, he, List.filter_cons]


theorem Sorted.nodup {l : List Int} (h : Sorted l) : l.Nodup :=
  List.Pairwise.imp (fun hab => ne_of_lt hab) h

/-- In a map with strictly increasing keys an entry is determined by its key. -/
theorem entry_eq_of_key_eq {m : List (Int × ConnectingInfo)} (hs : Sorted (keys m))
    {e e' : Int × ConnectingInfo} (he : e ∈ m) (he' : e' ∈ m) (hk : e.1 = e'.1) : e = e' :=
  List.inj_on_of_nodup_map hs.nodup he he' hk

theorem mem_keys_filter {m : List (Int × ConnectingInfo)} (hs : Sorted (keys m))
    (p : Int × ConnectingInfo → Bool) {e : Int × ConnectingInfo} (he : e ∈ m) :
    e.1 ∈ keys (m.filter p) ↔ p e = true := by
  constructor
  · intro h
    obtain ⟨e', he', hk⟩ := List.mem_map.1 h
    have hm := List.mem_filter.1 he'
    have : e' = e := entry_eq_of_key_eq hs hm.1 he hk
    rw [← this]; exact hm.2
  · intro h
    exact List.mem_map.2 ⟨e, List.mem_filter.2 ⟨he, h⟩, rfl⟩

/-- C1. `checkTimeout` expires exactly the entries of the connecting map whose
`now - startConnectTime` has reached `timeout` (the boundary included): the map keeps
exactly the other entries, unchanged; each expired fd leaves the readiness set and the
in-flight set, is closed, and is reported once as `(-1, uid)`, in key order; the other
entries keep their place in the in-flight set and the readiness set and nothing else is
reported, closed, popped or created. -/
theorem checkTimeout_expires_exactly (now : Int) (s : ThreadConnector)
    (hs : Sorted (keys s.mConnectingInfos)) :
    (checkTimeout now s).mConnectingInfos
        = s.mConnectingInfos.filter (fun e => now - e.2.startConnectTime < e.2.timeout) ∧
    callbacks (checkTimeout now s).trace
        = callbacks s.trace ++
          (s.mConnectingInfos.filter (fun e => now - e.2.startConnectTime ≥ e.2.timeout)).map
            (fun e => ((-1 : Int), e.2.uid)) ∧
    closed (checkTimeout now s).trace
        = closed s.trace ++
          (s.mConnectingInfos.filter (fun e => now - e.2.startConnectTime ≥ e.2.timeout)).map
            Prod.fst ∧
    (∀ e ∈ s.mConnectingInfos, now - e.2.startConnectTime ≥ e.2.timeout →
        e.1 ∉ (checkTimeout now s).mFDSet ∧
        e.1 ∉ keys (checkTimeout now s).mConnectingInfos ∧
        e.1 ∉ (checkTimeout now s).mConnectingFds) ∧
    (∀ e ∈ s.mConnectingInfos, now - e.2.startConnectTime < e.2.timeout →
        e ∈ (checkTimeout now s).mConnectingInfos ∧
        (e.1 ∈ (checkTimeout now s).mConnectingFds ↔ e.1 ∈ s.mConnectingFds) ∧
        (e.1 ∈ (checkTimeout now s).mFDSet ↔ e.1 ∈ s.mFDSet)) ∧
    popped (checkTimeout now s).trace = popped s.trace ∧
    created (checkTimeout now s).trace = created s.trace ∧
    (checkTimeout now s).mConnectRequests = s.mConnectRequests := by
  have hexp : ∀ e : Int × ConnectingInfo,
      (expired now e = true) ↔ now - e.2.startConnectTime ≥ e.2.timeout := by
    intro e; simp [expired]
  have hfe : (fun e : Int × ConnectingInfo =>
      decide (now - e.2.startConnectTime ≥ e.2.timeout)) = expired now := by
    funext e; simp [expired]
  have hmap : (checkTimeout now s).mConnectingInfos
      = s.mConnectingInfos.filter (fun e => now - e.2.startConnectTime < e.2.timeout) := by
    simp only [checkTimeout, checkTimeoutLoop_eq]
    apply List.filter_congr
    intro e he
    have := mem_keys_filter hs (expired now) he
    by_cases hx : expired now e = true
    · have h1 := (hexp e).1 hx
      simp [this, hx, not_lt.2 h1]
    · have h1 : ¬ now - e.2.startConnectTime ≥ e.2.timeout := fun h => hx ((hexp e).2 h)
      simp [this, hx, not_le.1 h1]
  have htrace : (checkTimeout now s).trace
      = s.trace ++ (s.mConnectingInfos.filter (expired now)).flatMap expiryEvents := by
    simp only [checkTimeout, checkTimeoutLoop_eq]
  have hcb : ∀ l : List (Int × ConnectingInfo),
      callbacks (l.flatMap expiryEvents) = l.map (fun e => ((-1 : Int), e.2.uid)) := by
    intro l
    induction l with
    | nil => rfl
    | cons a t ih =>
      simp only [List.flatMap_cons, callbacks_append, ih, List.map_cons]
      simp [expiryEvents, callbacks, SOCKET_ERROR]
  have hcl : ∀ l : List (Int × ConnectingInfo),
      closed (l.flatMap expiryEvents) = l.map Prod.fst := by
    intro l
    induction l with
    | nil => rfl
    | cons a t ih =>
      simp only [List.flatMap_cons, closed_append, ih, List.map_cons]
      simp [expiryEvents, closed]
  have hpo : ∀ l : List (Int × ConnectingInfo), popped (l.flatMap expiryEvents) = [] := by
    intro l
    induction l with
    | nil => rfl
    | cons a t ih =>
      simp only [List.flatMap_cons, popped_append, ih]
      simp [expiryEvents, popped]
  have hcr : ∀ l : List (Int × ConnectingInfo), created (l.flatMap expiryEvents) = [] := by
    intro l
    induction l with
    | nil => rfl
    | cons a t ih =>
      simp only [List.flatMap_cons, created_append, ih]
      simp [expiryEvents, created]
  have hfds : ∀ x, x ∈ (checkTimeout now s).mConnectingFds ↔
      x ∈ s.mConnectingFds ∧ x ∉ keys (s.mConnectingInfos.filter (expired now)) := by
    intro x; simp [checkTimeout, checkTimeoutLoop_eq]
  have hset : ∀ x, x ∈ (checkTimeout now s).mFDSet ↔
      x ∈ s.mFDSet ∧ x ∉ keys (s.mConnectingInfos.filter (expired now)) := by
    intro x; simp [checkTimeout, checkTimeoutLoop_eq]
  refine ⟨hmap, ?_, ?_, ?_, ?_, ?_, ?_, ?_⟩
  · rw [htrace, callbacks_append, hcb, hfe]
  · rw [htrace, closed_append, hcl, hfe]
  · intro e he hge
    have hk : e.1 ∈ keys (s.mConnectingInfos.filter (expired now)) :=
      (mem_keys_filter hs (expired now) he).2 ((hexp e).2 hge)
    refine ⟨fun h => ((hset _).1 h).2 hk, ?_, fun h => ((hfds _).1 h).2 hk⟩
    rw [hmap]
    intro h
    obtain ⟨e', he', hk'⟩ := List.mem_map.1 h
    have hm := List.mem_filter.1 he'
    have : e' = e := entry_eq_of_key_eq hs hm.1 he hk'
    subst this
    have := hm.2
    simp at this
    omega
  · intro e he hlt
    have hk : e.1 ∉ keys (s.mConnectingInfos.filter (expired now)) := by
      intro h
      have := (hexp e).1 ((mem_keys_filter hs (expired now) he).1 h)
      omega
    refine ⟨?_, ?_, ?_⟩
    · rw [hmap]; exact List.mem_filter.2 ⟨he, by simpa using hlt⟩
    · rw [hfds]; exact ⟨fun h => h.1, fun h => ⟨h, hk⟩⟩
    · rw [hset]; exact ⟨fun h => h.1, fun h => ⟨h, hk⟩⟩
  · rw [htrace, popped_append, hpo, List.append_nil]
  · rw [htrace, created_append, hcr, List.append_nil]
  · simp only [checkTimeout, checkTimeoutLoop_eq]


/-- C1 at a sample state, at the instant `1300` at which the entry of fd 6 reaches its
timeout of 300 exactly: it is reported, the entry of fd 5 stays. -/
theorem checkTimeout_expires_exactly_witness :
    Sorted (keys sampleState.mConnectingInfos) ∧
    callbacks (checkTimeout 1300 sampleState).trace = [((-1 : Int), (22 : Int))] ∧
    closed (checkTimeout 1300 sampleState).trace = [6] ∧
    (checkTimeout 1300 sampleState).mConnectingInfos
      = [(5, { startConnectTime := 1000, uid := 11, timeout := 500 })] :=
  ⟨by decide,
   (checkTimeout_expires_exactly 1300 sampleState (by decide)).2.1.trans (by decide),
   (checkTimeout_expires_exactly 1300 sampleState (by decide)).2.2.1.trans (by decide),
   (checkTimeout_expires_exactly 1300 sampleState (by decide)).1.trans (by decide)⟩

/-! ## The containers -/

theorem mem_setInsert (x y : Int) (l : List Int) : y ∈ setInsert x l ↔ y = x ∨ y ∈ l := by
  induction l with
  | nil => simp [setInsert]
  | cons a t ih =>
    unfold setInsert
    split
    · simp
    · split
      · rename_i h; subst h; simp
      · simp [ih]; tauto

theorem length_setInsert_le (x : Int) (l : List Int) :
    (setInsert x l).length ≤ l.length + 1 := by
  induction l with
  | nil => simp [setInsert]
  | cons a t ih =>
    unfold setInsert
    split
    · simp
    · split
      · simp
      · simp; omega

theorem length_setErase_le (l : List Int) (x : Int) : (setErase l x).length ≤ l.length :=
  List.length_filter_le _ _

theorem sorted_setInsert (x : Int) (l : List Int) (h : Sorted l) : Sorted (setInsert x l) := by
  induction l with
  | nil => simp [setInsert, Sorted]
  | cons a t ih =>
    unfold Sorted at h ih ⊢
    rw [List.pairwise_cons] at h
    unfold setInsert
    split
    · rename_i hlt
      refine List.pairwise_cons.2 ⟨?_, List.pairwise_cons.2 h⟩
      intro b hb
      rcases List.mem_cons.1 hb with rfl | hb
      · exact hlt
      · exact lt_trans hlt (h.1 b hb)
    · split
      · exact List.pairwise_cons.2 h
      · rename_i h1 h2
        refine List.pairwise_cons.2 ⟨?_, ih h.2⟩
        intro b hb
        rcases (mem_setInsert x b t).1 hb with rfl | hb
        · omega
        · exact h.1 b hb

theorem sorted_setErase (l : List Int) (x : Int) (h : Sorted l) : Sorted (setErase l x) :=
  List.Pairwise.filter _ h

theorem mem_setErase (l : List Int) (x y : Int) : y ∈ setErase l x ↔ y ∈ l ∧ y ≠ x := by
  simp [setErase]

theorem keys_mapAssign (k : Int) (v : ConnectingInfo) (m : List (Int × ConnectingInfo)) :
    keys (mapAssign k v m) = setInsert k (keys m) := by
  induction m with
  | nil => simp [mapAssign, setInsert, keys]
  | cons a t ih =>
    obtain ⟨k', v'⟩ := a
    simp only [keys, List.map_cons] at ih ⊢
    unfold mapAssign setInsert
    split
    · simp
    · split
      · rename_i h; subst h; simp
      · simp [ih]

theorem keys_mapErase (m : List (Int × ConnectingInfo)) (k : Int) :
    keys (mapErase m k) = setErase (keys m) k := by
  simp only [keys, mapErase, setErase, List.filter_map]
  rfl

theorem mapFind_mapAssign (k : Int) (v : ConnectingInfo) (m : List (Int × ConnectingInfo)) :
    mapFind (mapAssign k v m) k = some v := by
  induction m with
  | nil => simp [mapAssign, mapFind]
  | cons a t ih =>
    obtain ⟨k', v'⟩ := a
    unfold mapAssign
    split
    · simp [mapFind]
    · split
      · simp [mapFind]
      · rename_i h1 h2
        have : ¬ k' = k := fun h => h2 h.symm
        simpa [mapFind, List.find?_cons, this] using ih

theorem mapFind_eq_none {m : List (Int × ConnectingInfo)} {k : Int} (h : k ∉ keys m) :
    mapFind m k = none := by
  simp only [mapFind, Option.map_eq_none', List.find?_eq_none]
  intro e he hk
  exact h (List.mem_map.2 ⟨e, he, by simpa using hk⟩)

theorem mapFind_eq_some {m : List (Int × ConnectingInfo)} {k : Int} {v : ConnectingInfo}
    (h : mapFind m k = some v) : (k, v) ∈ m := by
  simp only [mapFind, Option.map_eq_some'] at h
  obtain ⟨e, he, hv⟩ := h
  have h1 := List.mem_of_find?_eq_some he
  have h2 := List.find?_some he
  simp at h2
  obtain ⟨a, b⟩ := e
  simp at hv h2
  subst hv; subst h2
  exact h1

theorem mapFind_of_mem {m : List (Int × ConnectingInfo)} (hs : Sorted (keys m))
    {e : Int × ConnectingInfo} (he : e ∈ m) : mapFind m e.1 = some e.2 := by
  cases hf : mapFind m e.1 with
  | none =>
    have : e.1 ∉ keys m := by
      intro hk
      simp only [mapFind, Option.map_eq_none', List.find?_eq_none] at hf
      have := hf e he
      simp at this
    exact absurd (List.mem_map.2 ⟨e, he, rfl⟩) this
  | some v =>
    have := entry_eq_of_key_eq hs (mapFind_eq_some hf) he rfl
    rw [← this]

/-! ## `pollConnectRequest` -/

/-- C3. The body of the `pollConnectRequest` loop for one popped request has exactly three
outcomes, decided by what socket creation and `connect` return: (1) a socket was created
and `connect` returned 0: the callback gets `(fd, uid)` and nothing is registered;
(2) a socket was created, `connect` returned a negative value and `sErrno` is the
in-progress code: the fd enters the connecting map (with the request's uid and timeout and
the current time), the in-flight set and the readiness set, and no callback is invoked;
(3) in every other case nothing is registered and the callback gets `(SOCKET_ERROR, uid)`. -/
theorem pollOne_outcomes (P : Platform) (r : ConnectResp) (addr : AsyncConnectAddr)
    (s : ThreadConnector) :
    (r.sock ≠ SOCKET_ERROR ∧ r.n = 0 →
      pollOne P r addr s =
        { s with trace := s.trace ++ [Event.create r.sock, Event.callback r.sock addr.uid] }) ∧
    (r.sock ≠ SOCKET_ERROR ∧ r.n < 0 ∧ r.sErrno = check_error P →
      pollOne P r addr s =
        { s with
          mConnectingInfos :=
            mapAssign r.sock
              { startConnectTime := r.now, uid := addr.uid, timeout := addr.timeout }
              s.mConnectingInfos
          mConnectingFds := setInsert r.sock s.mConnectingFds
          mFDSet := ox_fdset_add s.mFDSet r.sock
          trace := s.trace ++ [Event.create r.sock] } ∧
      mapFind (pollOne P r addr s).mConnectingInfos r.sock
        = some { startConnectTime := r.now, uid := addr.uid, timeout := addr.timeout } ∧
      r.sock ∈ (pollOne P r addr s).mConnectingFds ∧
      r.sock ∈ (pollOne P r addr s).mFDSet ∧
      callbacks (pollOne P r addr s).trace = callbacks s.trace) ∧
    (¬ (r.sock ≠ SOCKET_ERROR ∧ r.n = 0) ∧
      ¬ (r.sock ≠ SOCKET_ERROR ∧ r.n < 0 ∧ r.sErrno = check_error P) →
      (pollOne P r addr s).mConnectingInfos = s.mConnectingInfos ∧
      (pollOne P r addr s).mConnectingFds = s.mConnectingFds ∧
      (pollOne P r addr s).mFDSet = s.mFDSet ∧
      callbacks (pollOne P r addr s).trace
        = callbacks s.trace ++ [(SOCKET_ERROR, addr.uid)]) := by
  refine ⟨?_, ?_, ?_⟩
  · rintro ⟨h1, h2⟩
    simp [pollOne, attempt, h1, h2]
  · rintro ⟨h1, h2, h3⟩
    have h4 : ¬ check_error P ≠ r.sErrno := by simp [h3]
    have heq : pollOne P r addr s =
        { s with
          mConnectingInfos :=
            mapAssign r.sock
              { startConnectTime := r.now, uid := addr.uid, timeout := addr.timeout }
              s.mConnectingInfos
          mConnectingFds := setInsert r.sock s.mConnectingFds
          mFDSet := ox_fdset_add s.mFDSet r.sock
          trace := s.trace ++ [Event.create r.sock] } := by
      simp [pollOne, attempt, h1, h2, h3]
    refine ⟨heq, ?_, ?_, ?_, ?_⟩
    · rw [heq]; exact mapFind_mapAssign _ _ _
    · rw [heq]; exact (mem_setInsert _ _ _).2 (Or.inl rfl)
    · rw [heq]; exact (mem_setInsert _ _ _).2 (Or.inl rfl)
    · rw [heq]; simp [callbacks_append, callbacks]
  · rintro ⟨h1, h2⟩
    by_cases hs : r.sock = SOCKET_ERROR
    · simp [pollOne, attempt, hs, callbacks_append, callbacks]
    · by_cases hn : r.n < 0
      · have he : check_error P ≠ r.sErrno := fun h => h2 ⟨hs, hn, h.symm⟩
        simp [pollOne, attempt, hs, hn, he, callbacks_append, callbacks]
      · have h0 : ¬ r.n = 0 := fun h => h1 ⟨hs, h⟩
        simp [pollOne, attempt, hs, hn, h0, callbacks_append, callbacks]

/-- C3 on three sample answers of the operating system: an immediate success on fd 7, a
connect in progress on fd 7, and a refused connect on fd 7. -/
theorem pollOne_outcomes_witness :
    callbacks (pollOne samplePlatform { sock := 7, n := 0, sErrno := 0, now := 1200 }
        { ip := "10.0.0.3", port := 80, timeout := 300, uid := 33 }
        ThreadConnector.init).trace = [((7 : Int), (33 : Int))] ∧
    mapFind (pollOne samplePlatform { sock := 7, n := -1, sErrno := 115, now := 1200 }
        { ip := "10.0.0.3", port := 80, timeout := 300, uid := 33 }
        ThreadConnector.init).mConnectingInfos 7
      = some { startConnectTime := 1200, uid := 33, timeout := 300 } ∧
    callbacks (pollOne samplePlatform { sock := 7, n := -1, sErrno := 111, now := 1200 }
        { ip := "10.0.0.3", port := 80, timeout := 300, uid := 33 }
        ThreadConnector.init).trace = [((-1 : Int), (33 : Int))] :=
  ⟨(congrArg (fun s => callbacks s.trace)
      ((pollOne_outcomes samplePlatform { sock := 7, n := 0, sErrno := 0, now := 1200 }
        { ip := "10.0.0.3", port := 80, timeout := 300, uid := 33 }
        ThreadConnector.init).1 ⟨by decide, by decide⟩)).trans (by decide),
   ((pollOne_outcomes samplePlatform { sock := 7, n := -1, sErrno := 115, now := 1200 }
        { ip := "10.0.0.3", port := 80, timeout := 300, uid := 33 }
        ThreadConnector.init).2.1 ⟨by decide, by decide, by decide⟩).2.1,
   ((pollOne_outcomes samplePlatform { sock := 7, n := -1, sErrno := 111, now := 1200 }
        { ip := "10.0.0.3", port := 80, timeout := 300, uid := 33 }
        ThreadConnector.init).2.2 ⟨by decide, by decide⟩).2.2.2.trans (by decide)⟩

theorem pollOne_fds (P : Platform) (r : ConnectResp) (addr : AsyncConnectAddr)
    (s : ThreadConnector) :
    (pollOne P r addr s).mConnectingFds = s.mConnectingFds ∨
    (pollOne P r addr s).mConnectingFds = setInsert r.sock s.mConnectingFds := by
  unfold pollOne attempt
  by_cases hs : r.sock = SOCKET_ERROR
  · simp [hs]
  · by_cases hn : r.n < 0
    · by_cases he : check_error P = r.sErrno
      · simp [hs, hn, he]
      · simp [hs, hn, he]
    · by_cases h0 : r.n = 0
      · simp [hs, h0]
      · simp [hs, hn, h0]

theorem pollOne_fds_length (P : Platform) (r : ConnectResp) (addr : AsyncConnectAddr)
    (s : ThreadConnector) :
    (pollOne P r addr s).mConnectingFds.length ≤ s.mConnectingFds.length + 1 := by
  rcases pollOne_fds P r addr s with h | h
  · rw [h]; omega
  · rw [h]; exact length_setInsert_le _ _

theorem pollLoop_cap (P : Platform) (l : List AsyncConnectAddr) :
    ∀ (env : Nat → ConnectResp) (s : ThreadConnector),
      s.mConnectingFds.length ≤ P.FD_SETSIZE →
      (pollLoop P env l s).mConnectingFds.length ≤ P.FD_SETSIZE := by
  induction l with
  | nil => intro env s h; simpa [pollLoop] using h
  | cons a rest ih =>
    intro env s h
    unfold pollLoop
    split
    · rename_i hlt
      apply ih
      have := pollOne_fds_length P (env 0) a { s with trace := s.trace ++ [Event.pop a] }
      simp only at this
      omega
    · simpa using h

theorem pollLoop_full (P : Platform) (l : List AsyncConnectAddr) (env : Nat → ConnectResp)
    (s : ThreadConnector) (h : P.FD_SETSIZE ≤ s.mConnectingFds.length) :
    pollLoop P env l s = { s with mConnectRequests := l.reverse } := by
  cases l with
  | nil => simp [pollLoop]
  | cons a rest =>
    have : ¬ s.mConnectingFds.length < P.FD_SETSIZE := by omega
    simp [pollLoop, this]

theorem completeStep_fds (f : List Int) (s : ThreadConnector) (fd : Int) :
    (completeStep f s fd).mConnectingFds = setErase s.mConnectingFds fd := by
  unfold completeStep
  simp only
  split
  · split <;> rfl
  · rfl

theorem foldl_completeStep_fds_length (f : List Int) (c : List Int) :
    ∀ s : ThreadConnector,
      (c.foldl (completeStep f) s).mConnectingFds.length ≤ s.mConnectingFds.length := by
  induction c with
  | nil => intro s; simp
  | cons fd rest ih =>
    intro s
    rw [List.foldl_cons]
    refine le_trans (ih _) ?_
    rw [completeStep_fds]
    exact length_setErase_le _ _

theorem checkConnectStatus_fds_length (P : Platform) (r : PollResult) (s : ThreadConnector) :
    (checkConnectStatus P r s).mConnectingFds.length ≤ s.mConnectingFds.length := by
  unfold checkConnectStatus
  split
  · exact le_refl _
  · exact foldl_completeStep_fds_length _ _ _

theorem checkTimeout_fds_length (now : Int) (s : ThreadConnector) :
    (checkTimeout now s).mConnectingFds.length ≤ s.mConnectingFds.length := by
  simp only [checkTimeout, checkTimeoutLoop_eq]
  exact List.length_filter_le _ _

/-- The five paths through the body of the `pollConnectRequest` loop. -/
theorem pollOne_cases (P : Platform) (r : ConnectResp) (addr : AsyncConnectAddr)
    (s : ThreadConnector) :
    (r.sock = SOCKET_ERROR ∧
      pollOne P r addr s =
        { s with
          trace := s.trace ++ [Event.create r.sock, Event.callback SOCKET_ERROR addr.uid] }) ∨
    (r.sock ≠ SOCKET_ERROR ∧ r.n < 0 ∧ check_error P ≠ r.sErrno ∧
      pollOne P r addr s =
        { s with
          trace := s.trace ++
            [Event.create r.sock, Event.close r.sock,
             Event.callback SOCKET_ERROR addr.uid] }) ∨
    (r.sock ≠ SOCKET_ERROR ∧ r.n < 0 ∧ check_error P = r.sErrno ∧
      pollOne P r addr s =
        { s with
          mConnectingInfos :=
            mapAssign r.sock
              { startConnectTime := r.now, uid := addr.uid, timeout := addr.timeout }
              s.mConnectingInfos
          mConnectingFds := setInsert r.sock s.mConnectingFds
          mFDSet := ox_fdset_add s.mFDSet r.sock
          trace := s.trace ++ [Event.create r.sock] }) ∨
    (r.sock ≠ SOCKET_ERROR ∧ r.n = 0 ∧
      pollOne P r addr s =
        { s with trace := s.trace ++ [Event.create r.sock, Event.callback r.sock addr.uid] }) ∨
    (r.sock ≠ SOCKET_ERROR ∧ 0 < r.n ∧
      pollOne P r addr s =
        { s with
          trace := s.trace ++ [Event.create r.sock, Event.callback SOCKET_ERROR addr.uid] }) := by
  by_cases hs : r.sock = SOCKET_ERROR
  · left; exact ⟨hs, by simp [pollOne, attempt, hs]⟩
  · right
    by_cases hn : r.n < 0
    · by_cases he : check_error P = r.sErrno
      · right; left; exact ⟨hs, hn, he, by simp [pollOne, attempt, hs, hn, he]⟩
      · left; exact ⟨hs, hn, he, by simp [pollOne, attempt, hs, hn, he]⟩
    · right; right
      by_cases h0 : r.n = 0
      · left; exact ⟨hs, h0, by simp [pollOne, attempt, hs, h0]⟩
      · right; exact ⟨hs, by omega, by simp [pollOne, attempt, hs, hn, h0]⟩

theorem pollOne_popped (P : Platform) (r : ConnectResp) (addr : AsyncConnectAddr)
    (s : ThreadConnector) : popped (pollOne P r addr s).trace = popped s.trace := by
  rcases pollOne_cases P r addr s with h | h | h | h | h
  · rw [h.2]; simp [popped_append, popped]
  · rw [h.2.2.2]; simp [popped_append, popped]
  · rw [h.2.2.2]; simp [popped_append, popped]
  · rw [h.2.2]; simp [popped_append, popped]
  · rw [h.2.2]; simp [popped_append, popped]

/-- What the loop of `pollConnectRequest` pops: a first part of the queue, the rest going
back to `mConnectRequests`; it stops before the end of the queue only at the cap. -/
theorem pollLoop_pops (P : Platform) (l : List AsyncConnectAddr) :
    ∀ (env : Nat → ConnectResp) (s : ThreadConnector),
      s.mConnectingFds.length ≤ P.FD_SETSIZE →
      ∃ k, popped (pollLoop P env l s).trace = popped s.trace ++ l.take k ∧
        (pollLoop P env l s).mConnectRequests = (l.drop k).reverse ∧
        (k < l.length → (pollLoop P env l s).mConnectingFds.length = P.FD_SETSIZE) := by
  induction l with
  | nil => intro env s _; exact ⟨0, by simp [pollLoop]⟩
  | cons a rest ih =>
    intro env s h
    by_cases hlt : s.mConnectingFds.length < P.FD_SETSIZE
    · have h1 := pollOne_fds_length P (env 0) a { s with trace := s.trace ++ [Event.pop a] }
      simp only at h1
      obtain ⟨k, hk1, hk2, hk3⟩ := ih (fun i => env (i + 1))
        (pollOne P (env 0) a { s with trace := s.trace ++ [Event.pop a] }) (by omega)
      refine ⟨k + 1, ?_, ?_, ?_⟩
      · simp only [pollLoop, hlt, if_true]
        rw [hk1, pollOne_popped]
        simp [popped_append, popped]
      · simp only [pollLoop, hlt, if_true]
        rw [hk2]; simp
      · intro hk
        simp only [pollLoop, hlt, if_true]
        apply hk3
        simpa using hk
    · refine ⟨0, ?_, ?_, ?_⟩
      · simp [pollLoop, hlt]
      · simp [pollLoop, hlt]
      · intro _
        simp only [pollLoop, hlt, if_false]
        omega

/-- C4. The in-flight fd set never exceeds the readiness-set cap: from a state whose
in-flight set has at most `FD_SETSIZE` members, `pollConnectRequest`, `checkConnectStatus`
and `checkTimeout` each lead to a state whose in-flight set has at most `FD_SETSIZE`
members.  `pollConnectRequest` pops the requests from the back of the queue and stops
before the queue is empty only when the in-flight set holds `FD_SETSIZE` fds, the requests
not popped staying queued; in particular, when the in-flight set already holds
`FD_SETSIZE` fds it pops no request and changes nothing but the queue, which holds every
request that was readable. -/
theorem inflight_set_within_cap (P : Platform) (s : ThreadConnector)
    (h : s.mConnectingFds.length ≤ P.FD_SETSIZE) :
    (∀ (arrived : List AsyncConnectAddr) (env : Nat → ConnectResp),
      (pollConnectRequest P arrived env s).mConnectingFds.length ≤ P.FD_SETSIZE) ∧
    (∀ r : PollResult, (checkConnectStatus P r s).mConnectingFds.length ≤ P.FD_SETSIZE) ∧
    (∀ now : Int, (checkTimeout now s).mConnectingFds.length ≤ P.FD_SETSIZE) ∧
    (∀ (arrived : List AsyncConnectAddr) (env : Nat → ConnectResp),
      ∃ k, popped (pollConnectRequest P arrived env s).trace
            = popped s.trace ++ (SyncRead arrived s.mConnectRequests).reverse.take k ∧
        (pollConnectRequest P arrived env s).mConnectRequests
            = ((SyncRead arrived s.mConnectRequests).reverse.drop k).reverse ∧
        (k < (SyncRead arrived s.mConnectRequests).length →
          (pollConnectRequest P arrived env s).mConnectingFds.length = P.FD_SETSIZE)) ∧
    (∀ (arrived : List AsyncConnectAddr) (env : Nat → ConnectResp),
      s.mConnectingFds.length = P.FD_SETSIZE →
      pollConnectRequest P arrived env s
        = { s with mConnectRequests := SyncRead arrived s.mConnectRequests } ∧
      popped (pollConnectRequest P arrived env s).trace = popped s.trace) := by
  refine ⟨?_, ?_, ?_, ?_, ?_⟩
  · intro arrived env
    exact pollLoop_cap P _ env s h
  · intro r
    exact le_trans (checkConnectStatus_fds_length P r s) h
  · intro now
    exact le_trans (checkTimeout_fds_length now s) h
  · intro arrived env
    obtain ⟨k, h1, h2, h3⟩ := pollLoop_pops P (SyncRead arrived s.mConnectRequests).reverse env s h
    exact ⟨k, h1, h2, fun hk => h3 (by simpa using hk)⟩
  · intro arrived env hfull
    have heq : pollConnectRequest P arrived env s
        = { s with mConnectRequests := SyncRead arrived s.mConnectRequests } := by
      unfold pollConnectRequest
      rw [pollLoop_full P _ env s (by omega), List.reverse_reverse]
    exact ⟨heq, by rw [heq]⟩

/-- C4 at the sample state, whose in-flight set is full: the two arriving requests stay
queued behind the one already there. -/
theorem inflight_set_within_cap_witness :
    sampleState.mConnectingFds.length ≤ samplePlatform.FD_SETSIZE ∧
    (pollConnectRequest samplePlatform (sampleRequests.take 2)
        (fun i => { sock := 7 + i, n := -1, sErrno := 115, now := 1200 })
        sampleState).mConnectingFds.length ≤ samplePlatform.FD_SETSIZE ∧
    (pollConnectRequest samplePlatform (sampleRequests.take 2)
        (fun i => { sock := 7 + i, n := -1, sErrno := 115, now := 1200 })
        sampleState).mConnectRequests
      = sampleRequests.take 2 ++ sampleState.mConnectRequests :=
  ⟨by decide,
   (inflight_set_within_cap samplePlatform sampleState (by decide)).1 _ _,
   congrArg ThreadConnector.mConnectRequests
     (((inflight_set_within_cap samplePlatform sampleState (by decide)).2.2.2.2
        (sampleRequests.take 2)
        (fun i => { sock := 7 + i, n := -1, sErrno := 115, now := 1200 }) (by decide)).1)⟩

/-! ## `checkConnectStatus` -/

theorem filter_or_split {α : Type} (p q : α → Bool) (l : List α)
    (hdisj : ∀ a ∈ l, p a = true → q a = true → False)
    (hord : l.Pairwise (fun a b => q a = true → p b = true → False)) :
    l.filter (fun a => p a || q a) = l.filter p ++ l.filter q := by
  induction l with
  | nil => rfl
  | cons a t ih =>
    rw [List.pairwise_cons] at hord
    have iht := ih (fun b hb => hdisj b (List.mem_cons_of_mem _ hb)) hord.2
    cases hp : p a with
    | true =>
      have hq : q a = false := by
        cases hq : q a with
        | true => exact absurd hq (fun h => hdisj a (List.mem_cons_self _ _) hp h)
        | false => rfl
      simp [List.filter_cons, hp, hq, iht]
    | false =>
      cases hq : q a with
      | true =>
        have hnil : t.filter p = [] := by
          rw [List.filter_eq_nil_iff]
          intro b hb hpb
          exact hord.1 b hb hq hpb
        simp [List.filter_cons, hp, hq, iht, hnil]
      | false => simp [List.filter_cons, hp, hq, iht]

theorem filter_key_eq (m : List (Int × ConnectingInfo)) (hs : Sorted (keys m)) (x : Int) :
    m.filter (fun e => decide (e.1 = x))
      = match mapFind m x with
        | some ci => [(x, ci)]
        | none => [] := by
  induction m with
  | nil => simp [mapFind]
  | cons a t ih =>
    obtain ⟨k, v⟩ := a
    have hs' : Sorted (keys t) := by
      unfold Sorted keys at hs ⊢
      simp only [List.map_cons, List.pairwise_cons] at hs
      exact hs.2
    have hlt : ∀ e ∈ t, k < e.1 := by
      unfold Sorted keys at hs
      simp only [List.map_cons, List.pairwise_cons] at hs
      intro e he
      exact hs.1 e.1 (List.mem_map.2 ⟨e, he, rfl⟩)
    by_cases hk : k = x
    · subst hk
      have hnil : t.filter (fun e => decide (e.1 = k)) = [] := by
        rw [List.filter_eq_nil_iff]
        intro e he hek
        have := hlt e he
        simp at hek
        omega
      simp [List.filter_cons, mapFind, hnil]
    · have := ih hs'
      simp only [List.filter_cons, hk, decide_False, Bool.false_eq_true, if_false]
      rw [this]
      simp [mapFind, List.find?_cons, hk]

theorem sorted_mapErase (m : List (Int × ConnectingInfo)) (k : Int)
    (hs : Sorted (keys m)) : Sorted (keys (mapErase m k)) := by
  rw [keys_mapErase]; exact sorted_setErase _ _ hs

theorem mapErase_of_not_mem {m : List (Int × ConnectingInfo)} {k : Int} (h : k ∉ keys m) :
    mapErase m k = m := by
  unfold mapErase
  rw [List.filter_eq_self]
  intro e he
  have : e.1 ≠ k := fun hk => h (List.mem_map.2 ⟨e, he, hk⟩)
  simpa using this

theorem not_mem_keys_of_mapFind_none {m : List (Int × ConnectingInfo)} {k : Int}
    (h : mapFind m k = none) : k ∉ keys m := by
  intro hk
  obtain ⟨e, he, hek⟩ := List.mem_map.1 hk
  simp only [mapFind, Option.map_eq_none', List.find?_eq_none] at h
  have := h e he
  simp [hek] at this

/-- One turn of the loop over `complete_fds`, as an update of the whole state. -/
theorem completeStep_eq (f : List Int) (s : ThreadConnector) (x : Int)
    (hs : Sorted (keys s.mConnectingInfos)) :
    completeStep f s x =
      { mConnectRequests := s.mConnectRequests
        mConnectingInfos := mapErase s.mConnectingInfos x
        mConnectingFds := setErase s.mConnectingFds x
        mFDSet := setErase s.mFDSet x
        trace := s.trace ++
          (s.mConnectingInfos.filter (fun e => decide (e.1 = x))).flatMap (completeEvents f) } := by
  rw [filter_key_eq _ hs]
  unfold completeStep
  simp only [ox_fdset_del]
  cases hfind : mapFind s.mConnectingInfos x with
  | none =>
    simp [mapErase_of_not_mem (not_mem_keys_of_mapFind_none hfind)]
  | some ci =>
    by_cases hx : x ∈ f
    · simp [hx, completeEvents]
    · simp [hx, completeEvents]

/-- The loop over `complete_fds`, as an update of the whole state: the events follow the
key order of the map. -/
theorem foldl_completeStep_eq (f : List Int) (c : List Int) :
    ∀ s : ThreadConnector, Sorted c → Sorted (keys s.mConnectingInfos) →
      c.foldl (completeStep f) s =
        { mConnectRequests := s.mConnectRequests
          mConnectingInfos := s.mConnectingInfos.filter (fun e => decide (e.1 ∉ c))
          mConnectingFds := s.mConnectingFds.filter (fun x => decide (x ∉ c))
          mFDSet := s.mFDSet.filter (fun x => decide (x ∉ c))
          trace := s.trace ++
            (s.mConnectingInfos.filter (fun e => decide (e.1 ∈ c))).flatMap
              (completeEvents f) } := by
  induction c with
  | nil => intro s _ _; simp
  | cons x c' ih =>
    intro s hc hs
    have hc' : Sorted c' := by
      unfold Sorted at hc ⊢; exact (List.pairwise_cons.1 hc).2
    have hxlt : ∀ y ∈ c', x < y := by
      unfold Sorted at hc; exact (List.pairwise_cons.1 hc).1
    rw [List.foldl_cons, completeStep_eq f s x hs]
    rw [ih _ hc' (sorted_mapErase _ _ hs)]
    have hsplit : s.mConnectingInfos.filter (fun e => decide (e.1 ∈ x :: c'))
        = s.mConnectingInfos.filter (fun e => decide (e.1 = x))
          ++ s.mConnectingInfos.filter (fun e => decide (e.1 ∈ c')) := by
      have h1 := filter_or_split (fun e : Int × ConnectingInfo => decide (e.1 = x))
        (fun e => decide (e.1 ∈ c')) s.mConnectingInfos
        (by
          intro a _ h1 h2
          simp at h1 h2
          have := hxlt a.1 h2
          omega)
        (by
          have hp : s.mConnectingInfos.Pairwise (fun a b => a.1 < b.1) := by
            unfold Sorted keys at hs
            exact List.pairwise_map.1 hs
          refine hp.imp ?_
          intro a b hab h1 h2
          simp at h1 h2
          have := hxlt a.1 h1
          omega)
      rw [← h1]
      apply List.filter_congr
      intro e _
      simp
    simp only [ThreadConnector.mk.injEq, true_and]
    refine ⟨?_, ?_, ?_, ?_⟩
    · simp only [mapErase, List.filter_filter]
      apply List.filter_congr; intro e _
      by_cases h1 : e.1 = x <;> simp [h1]
    · simp only [setErase, List.filter_filter]
      apply List.filter_congr; intro e _
      by_cases h1 : e = x <;> simp [h1]
    · simp only [setErase, List.filter_filter]
      apply List.filter_congr; intro e _
      by_cases h1 : e = x <;> simp [h1]
    · rw [hsplit, List.flatMap_append, List.append_assoc]
      congr 2
      simp only [mapErase, List.filter_filter]
      congr 1
      apply List.filter_congr; intro e _
      by_cases h1 : e.1 = x
      · have : x ∉ c' := fun h => by have := hxlt x h; omega
        simp [h1, this]
      · simp [h1]

theorem foldl_guarded_insert (proj : Collected → List Int) (stp : Collected → Int → Collected)
    (g : Int → Bool)
    (hstep : ∀ acc x, proj (stp acc x) = if g x = true then setInsert x (proj acc) else proj acc)
    (l : List Int) :
    ∀ acc : Collected,
      (∀ y, y ∈ proj (l.foldl stp acc) ↔ y ∈ proj acc ∨ (y ∈ l ∧ g y = true)) ∧
      (Sorted (proj acc) → Sorted (proj (l.foldl stp acc))) := by
  induction l with
  | nil => intro acc; simp
  | cons x t ih =>
    intro acc
    obtain ⟨h1, h2⟩ := ih (stp acc x)
    rw [List.foldl_cons]
    constructor
    · intro y
      rw [h1, hstep]
      by_cases hg : g x = true
      · simp only [hg, if_true, mem_setInsert, List.mem_cons]
        constructor
        · rintro ((rfl | h) | h)
          · exact Or.inr ⟨Or.inl rfl, hg⟩
          · exact Or.inl h
          · exact Or.inr ⟨Or.inr h.1, h.2⟩
        · rintro (h | ⟨rfl | h, h'⟩)
          · exact Or.inl (Or.inr h)
          · exact Or.inl (Or.inl rfl)
          · exact Or.inr ⟨h, h'⟩
      · simp only [hg, if_false, List.mem_cons]
        constructor
        · rintro (h | h)
          · exact Or.inl h
          · exact Or.inr ⟨Or.inr h.1, h.2⟩
        · rintro (h | ⟨rfl | h, h'⟩)
          · exact Or.inl h
          · exact absurd h' hg
          · exact Or.inr ⟨h, h'⟩
    · intro hsorted
      apply h2
      rw [hstep]
      split
      · exact sorted_setInsert _ _ hsorted
      · exact hsorted

/-- What the first half of `checkConnectStatus` collects. -/
theorem collect_spec (P : Platform) (r : PollResult) (s : ThreadConnector) :
    Sorted (collect P r s).complete_fds ∧
    (∀ y, y ∈ (collect P r s).complete_fds ↔
      (y ∈ r.errorResult ∨ y ∈ r.writeResult) ∧ (P.windows = true ∨ y ∈ s.mConnectingFds)) ∧
    (∀ y, y ∈ (collect P r s).failed_fds ↔
      (y ∈ r.errorResult ∨ (y ∈ r.writeResult ∧ isConnectSuccess r y = false)) ∧
      (P.windows = true ∨ y ∈ s.mConnectingFds)) := by
  have hnil : Sorted ([] : List Int) := by simp [Sorted]
  by_cases hw : P.windows = true
  · simp only [collect, hw, if_true, true_or, and_true]
    have e1 := foldl_guarded_insert Collected.complete_fds collectErrorStep (fun _ => true)
      (by intro acc x; simp [collectErrorStep]) r.errorResult
      { complete_fds := [], failed_fds := [] }
    have e2 := foldl_guarded_insert Collected.failed_fds collectErrorStep (fun _ => true)
      (by intro acc x; simp [collectErrorStep]) r.errorResult
      { complete_fds := [], failed_fds := [] }
    have w1 := foldl_guarded_insert Collected.complete_fds (collectWriteStep r) (fun _ => true)
      (by intro acc x; simp [collectWriteStep]) r.writeResult
      (r.errorResult.foldl collectErrorStep { complete_fds := [], failed_fds := [] })
    have w2 := foldl_guarded_insert Collected.failed_fds (collectWriteStep r)
      (fun x => !isConnectSuccess r x)
      (by intro acc x; simp [collectWriteStep]) r.writeResult
      (r.errorResult.foldl collectErrorStep { complete_fds := [], failed_fds := [] })
    refine ⟨w1.2 (e1.2 hnil), ?_, ?_⟩
    · intro y
      rw [w1.1, e1.1]
      simp
    · intro y
      rw [w2.1, e2.1]
      simp
  · have hw' : P.windows = false := by simpa using hw
    simp only [collect, hw', Bool.false_eq_true, if_false, false_or]
    have f1 := foldl_guarded_insert Collected.complete_fds (collectFdStep r)
      (fun x => checkError r x || checkWrite r x)
      (by
        intro acc x
        unfold collectFdStep
        by_cases h1 : checkError r x = true
        · simp [h1]
        · by_cases h2 : checkWrite r x = true
          · simp [h1, h2]
          · simp [h1, h2])
      s.mConnectingFds { complete_fds := [], failed_fds := [] }
    have f2 := foldl_guarded_insert Collected.failed_fds (collectFdStep r)
      (fun x => checkError r x || (checkWrite r x && !isConnectSuccess r x))
      (by
        intro acc x
        unfold collectFdStep
        by_cases h1 : checkError r x = true
        · simp [h1]
        · by_cases h2 : checkWrite r x = true
          · by_cases h3 : isConnectSuccess r x = true
            · simp [h1, h2, h3]
            · simp [h1, h2, h3]
          · simp [h1, h2])
      s.mConnectingFds { complete_fds := [], failed_fds := [] }
    refine ⟨f1.2 hnil, ?_, ?_⟩
    · intro y
      rw [f1.1]
      simp [checkError, checkWrite]
      tauto
    · intro y
      rw [f2.1]
      simp [checkError, checkWrite]
      tauto

theorem callbacks_completeEvents (f : List Int) (l : List (Int × ConnectingInfo)) :
    callbacks (l.flatMap (completeEvents f))
      = l.map (fun e => (if e.1 ∈ f then (-1 : Int) else e.1, e.2.uid)) := by
  induction l with
  | nil => rfl
  | cons a t ih =>
    simp only [List.flatMap_cons, callbacks_append, ih, List.map_cons]
    by_cases h : a.1 ∈ f <;> simp [completeEvents, callbacks, h]

theorem closed_completeEvents (f : List Int) (l : List (Int × ConnectingInfo)) :
    closed (l.flatMap (completeEvents f))
      = (l.filter (fun e => decide (e.1 ∈ f))).map Prod.fst := by
  induction l with
  | nil => rfl
  | cons a t ih =>
    simp only [List.flatMap_cons, closed_append, ih, List.filter_cons]
    by_cases h : a.1 ∈ f <;> simp [completeEvents, closed, h]

theorem popped_completeEvents (f : List Int) (l : List (Int × ConnectingInfo)) :
    popped (l.flatMap (completeEvents f)) = [] := by
  induction l with
  | nil => rfl
  | cons a t ih =>
    simp only [List.flatMap_cons, popped_append, ih]
    by_cases h : a.1 ∈ f <;> simp [completeEvents, popped, h]

theorem created_completeEvents (f : List Int) (l : List (Int × ConnectingInfo)) :
    created (l.flatMap (completeEvents f)) = [] := by
  induction l with
  | nil => rfl
  | cons a t ih =>
    simp only [List.flatMap_cons, created_append, ih]
    by_cases h : a.1 ∈ f <;> simp [completeEvents, created, h]

/-- The method `checkConnectStatus` when the poll reports something, as an update of the
whole state. -/
theorem checkConnectStatus_eq (P : Platform) (r : PollResult) (s : ThreadConnector)
    (hpoll : 0 < r.ret) (hs : Sorted (keys s.mConnectingInfos)) :
    checkConnectStatus P r s =
      { mConnectRequests := s.mConnectRequests
        mConnectingInfos :=
          s.mConnectingInfos.filter (fun e => decide (e.1 ∉ (collect P r s).complete_fds))
        mConnectingFds :=
          s.mConnectingFds.filter (fun x => decide (x ∉ (collect P r s).complete_fds))
        mFDSet := s.mFDSet.filter (fun x => decide (x ∉ (collect P r s).complete_fds))
        trace := s.trace ++
          (s.mConnectingInfos.filter
            (fun e => decide (e.1 ∈ (collect P r s).complete_fds))).flatMap
              (completeEvents (collect P r s).failed_fds) } := by
  have : ¬ r.ret ≤ 0 := by omega
  simp only [checkConnectStatus, this, if_false]
  exact foldl_completeStep_eq _ _ s (collect_spec P r s).1 hs

theorem failed_iff_aux (a b c d : Prop) (h1 : (a ∨ b) ∧ d) :
    ((a ∨ (b ∧ ¬ (b ∧ c))) ∧ d) ↔ ¬ (¬ a ∧ b ∧ c) := by
  tauto

theorem isConnectSuccess_iff (r : PollResult) (y : Int) :
    isConnectSuccess r y = true ↔ y ∈ r.writeResult ∧ r.getsockopt y = some 0 := by
  unfold isConnectSuccess checkWrite
  by_cases h : y ∈ r.writeResult
  · cases hg : r.getsockopt y with
    | none => simp [h]
    | some v => simp [h]
  · simp [h]

/-- C2. When the poll reports at least one ready fd, `checkConnectStatus` invokes the
callback exactly once, with the entry's uid, for every entry of the connecting map whose fd
is flagged writable or errored (in key order, and for no other entry): the callback
receives the fd itself if and only if the fd is not flagged errored, is flagged writable
and `getsockopt(SO_ERROR)` succeeds with error value 0; otherwise it receives `-1` and the
fd is closed.  In both cases the fd leaves the readiness set, the connecting map and the
in-flight set; the entries that are not flagged stay where they are.  (On the branch that
walks `mConnectingFds` the keys of the map are taken to be in that set, as they are in
every state the connector reaches.) -/
theorem checkConnectStatus_reports (P : Platform) (r : PollResult) (s : ThreadConnector)
    (hpoll : 0 < r.ret) (hs : Sorted (keys s.mConnectingInfos))
    (hsync : P.windows = false → ∀ e ∈ s.mConnectingInfos, e.1 ∈ s.mConnectingFds) :
    callbacks (checkConnectStatus P r s).trace
      = callbacks s.trace ++
        (s.mConnectingInfos.filter
          (fun e => decide (e.1 ∈ r.errorResult ∨ e.1 ∈ r.writeResult))).map
          (fun e =>
            (if e.1 ∉ r.errorResult ∧ e.1 ∈ r.writeResult ∧ r.getsockopt e.1 = some 0
              then e.1 else (-1 : Int), e.2.uid)) ∧
    closed (checkConnectStatus P r s).trace
      = closed s.trace ++
        (s.mConnectingInfos.filter
          (fun e => decide ((e.1 ∈ r.errorResult ∨ e.1 ∈ r.writeResult) ∧
            ¬ (e.1 ∉ r.errorResult ∧ e.1 ∈ r.writeResult ∧ r.getsockopt e.1 = some 0)))).map
          Prod.fst ∧
    (checkConnectStatus P r s).mConnectingInfos
      = s.mConnectingInfos.filter
          (fun e => decide (¬ (e.1 ∈ r.errorResult ∨ e.1 ∈ r.writeResult))) ∧
    (∀ e ∈ s.mConnectingInfos, (e.1 ∈ r.errorResult ∨ e.1 ∈ r.writeResult) →
      e.1 ∉ (checkConnectStatus P r s).mFDSet ∧
      e.1 ∉ keys (checkConnectStatus P r s).mConnectingInfos ∧
      e.1 ∉ (checkConnectStatus P r s).mConnectingFds) ∧
    (∀ e ∈ s.mConnectingInfos, ¬ (e.1 ∈ r.errorResult ∨ e.1 ∈ r.writeResult) →
      e ∈ (checkConnectStatus P r s).mConnectingInfos ∧
      (e.1 ∈ (checkConnectStatus P r s).mConnectingFds ↔ e.1 ∈ s.mConnectingFds) ∧
      (e.1 ∈ (checkConnectStatus P r s).mFDSet ↔ e.1 ∈ s.mFDSet)) ∧
    popped (checkConnectStatus P r s).trace = popped s.trace ∧
    created (checkConnectStatus P r s).trace = created s.trace := by
  obtain ⟨_, hcomp, hfail⟩ := collect_spec P r s
  have hflag : ∀ e ∈ s.mConnectingInfos,
      (e.1 ∈ (collect P r s).complete_fds ↔ (e.1 ∈ r.errorResult ∨ e.1 ∈ r.writeResult)) := by
    intro e he
    rw [hcomp]
    constructor
    · exact fun h => h.1
    · intro h
      refine ⟨h, ?_⟩
      by_cases hw : P.windows = true
      · exact Or.inl hw
      · exact Or.inr (hsync (by simpa using hw) e he)
  have hfailed : ∀ e ∈ s.mConnectingInfos, e.1 ∈ (collect P r s).complete_fds →
      (e.1 ∈ (collect P r s).failed_fds ↔
        ¬ (e.1 ∉ r.errorResult ∧ e.1 ∈ r.writeResult ∧ r.getsockopt e.1 = some 0)) := by
    intro e _ hc
    have h1 := (hcomp e.1).1 hc
    rw [hfail]
    have h2 := isConnectSuccess_iff r e.1
    have h3 : isConnectSuccess r e.1 = false ↔ ¬ isConnectSuccess r e.1 = true := by simp
    rw [h3, h2]
    exact failed_iff_aux _ _ _ _ h1
  have hfilter : s.mConnectingInfos.filter
        (fun e => decide (e.1 ∈ (collect P r s).complete_fds))
      = s.mConnectingInfos.filter
        (fun e => decide (e.1 ∈ r.errorResult ∨ e.1 ∈ r.writeResult)) := by
    apply List.filter_congr
    intro e he
    simp only [hflag e he]
  have hmap : (checkConnectStatus P r s).mConnectingInfos
      = s.mConnectingInfos.filter
          (fun e => decide (¬ (e.1 ∈ r.errorResult ∨ e.1 ∈ r.writeResult))) := by
    rw [checkConnectStatus_eq P r s hpoll hs]
    apply List.filter_congr
    intro e he
    simp only [hflag e he]
  have hfds : ∀ x, x ∈ (checkConnectStatus P r s).mConnectingFds ↔
      x ∈ s.mConnectingFds ∧ x ∉ (collect P r s).complete_fds := by
    intro x; rw [checkConnectStatus_eq P r s hpoll hs]; simp
  have hset : ∀ x, x ∈ (checkConnectStatus P r s).mFDSet ↔
      x ∈ s.mFDSet ∧ x ∉ (collect P r s).complete_fds := by
    intro x; rw [checkConnectStatus_eq P r s hpoll hs]; simp
  have htrace : (checkConnectStatus P r s).trace = s.trace ++
      (s.mConnectingInfos.filter
        (fun e => decide (e.1 ∈ r.errorResult ∨ e.1 ∈ r.writeResult))).flatMap
          (completeEvents (collect P r s).failed_fds) := by
    rw [checkConnectStatus_eq P r s hpoll hs, hfilter]
  refine ⟨?_, ?_, hmap, ?_, ?_, ?_, ?_⟩
  · rw [htrace, callbacks_append, callbacks_completeEvents]
    congr 1
    apply List.map_congr_left
    intro e he
    have hm := List.mem_filter.1 he
    have hc : e.1 ∈ (collect P r s).complete_fds :=
      (hflag e hm.1).2 (by simpa using hm.2)
    have := hfailed e hm.1 hc
    by_cases hf : e.1 ∈ (collect P r s).failed_fds
    · rw [if_pos hf, if_neg (this.1 hf)]
    · rw [if_neg hf, if_pos (not_not.1 (fun h => hf (this.2 h)))]
  · rw [htrace, closed_append, closed_completeEvents, List.filter_filter]
    congr 2
    apply List.filter_congr
    intro e he
    by_cases hfl : e.1 ∈ r.errorResult ∨ e.1 ∈ r.writeResult
    · have := hfailed e he ((hflag e he).2 hfl)
      by_cases hf : e.1 ∈ (collect P r s).failed_fds
      · simp only [hf, decide_True, hfl, Bool.and_self, this.1 hf, not_false_eq_true,
          and_self]
      · have h2 : ¬¬ (e.1 ∉ r.errorResult ∧ e.1 ∈ r.writeResult ∧ r.getsockopt e.1 = some 0) :=
          fun h => hf (this.2 h)
        simp only [hf, decide_False, Bool.false_and, hfl, h2, and_false]
    · simp only [hfl, decide_False, Bool.and_false, false_and]
  · intro e he hfl
    have hc := (hflag e he).2 hfl
    refine ⟨fun h => ((hset _).1 h).2 hc, ?_, fun h => ((hfds _).1 h).2 hc⟩
    rw [hmap]
    intro h
    obtain ⟨e', he', hk'⟩ := List.mem_map.1 h
    have hm := List.mem_filter.1 he'
    have : e' = e := entry_eq_of_key_eq hs hm.1 he hk'
    subst this
    have := hm.2
    simp only [decide_eq_true_eq] at this
    exact this hfl
  · intro e he hfl
    have hc : e.1 ∉ (collect P r s).complete_fds := fun h => hfl ((hflag e he).1 h)
    refine ⟨?_, ?_, ?_⟩
    · rw [hmap]; exact List.mem_filter.2 ⟨he, by simpa using hfl⟩
    · rw [hfds]; exact ⟨fun h => h.1, fun h => ⟨h, hc⟩⟩
    · rw [hset]; exact ⟨fun h => h.1, fun h => ⟨h, hc⟩⟩
  · rw [htrace, popped_append, popped_completeEvents, List.append_nil]
  · rw [htrace, created_append, created_completeEvents, List.append_nil]

/-- C2 at the sample state and the sample poll answer: fd 5 is handed over, fd 6, errored
although writable with `SO_ERROR` 0, is closed and reported as `-1`. -/
theorem checkConnectStatus_reports_witness :
    (0 < samplePoll.ret ∧ Sorted (keys sampleState.mConnectingInfos) ∧
      (samplePlatform.windows = false →
        ∀ e ∈ sampleState.mConnectingInfos, e.1 ∈ sampleState.mConnectingFds)) ∧
    callbacks (checkConnectStatus samplePlatform samplePoll sampleState).trace
      = [((5 : Int), (11 : Int)), (-1, 22)] ∧
    closed (checkConnectStatus samplePlatform samplePoll sampleState).trace = [6] ∧
    (checkConnectStatus samplePlatform samplePoll sampleState).mConnectingInfos = [] ∧
    callbacks (checkConnectStatus sampleWindows samplePoll sampleState).trace
      = [((5 : Int), (11 : Int)), (-1, 22)] :=
  ⟨⟨by decide, by decide, by decide⟩,
   (checkConnectStatus_reports samplePlatform samplePoll sampleState
      (by decide) (by decide) (by decide)).1.trans (by decide),
   (checkConnectStatus_reports samplePlatform samplePoll sampleState
      (by decide) (by decide) (by decide)).2.1.trans (by decide),
   (checkConnectStatus_reports samplePlatform samplePoll sampleState
      (by decide) (by decide) (by decide)).2.2.1.trans (by decide),
   (checkConnectStatus_reports sampleWindows samplePoll sampleState
      (by decide) (by decide) (by decide)).1.trans (by decide)⟩

/-! ## The three in-flight records stay in sync -/

theorem InSync_init : InSync ThreadConnector.init := by
  simp [InSync, ThreadConnector.init, keys, Sorted]

theorem InSync_of_fields {s t : ThreadConnector} (h : InSync s)
    (h1 : t.mConnectingInfos = s.mConnectingInfos) (h2 : t.mConnectingFds = s.mConnectingFds)
    (h3 : t.mFDSet = s.mFDSet) : InSync t := by
  unfold InSync at h ⊢
  rw [h1, h2, h3]; exact h

theorem InSync_filter {s t : ThreadConnector} (h : InSync s) (p : Int → Bool)
    (h1 : t.mConnectingInfos = s.mConnectingInfos.filter (fun e => p e.1))
    (h2 : t.mConnectingFds = s.mConnectingFds.filter p)
    (h3 : t.mFDSet = s.mFDSet.filter p) : InSync t := by
  obtain ⟨hs, hk, hf, hn⟩ := h
  have hkeys : keys t.mConnectingInfos = (keys s.mConnectingInfos).filter p := by
    rw [h1]; simp only [keys, List.filter_map]; rfl
  refine ⟨?_, ?_, ?_, ?_⟩
  · rw [hkeys]; exact List.Pairwise.filter _ hs
  · rw [hkeys, h2, hk]
  · rw [h2, h3, hf]
  · rw [hkeys]; intro hmem; exact hn (List.mem_filter.1 hmem).1

theorem pollOne_inSync (P : Platform) (r : ConnectResp) (addr : AsyncConnectAddr)
    (s : ThreadConnector) (h : InSync s) : InSync (pollOne P r addr s) := by
  rcases pollOne_cases P r addr s with c | c | c | c | c
  · rw [c.2]; exact InSync_of_fields h rfl rfl rfl
  · rw [c.2.2.2]; exact InSync_of_fields h rfl rfl rfl
  · rw [c.2.2.2]
    obtain ⟨hs, hk, hf, hn⟩ := h
    refine ⟨?_, ?_, ?_, ?_⟩
    · simp only [keys_mapAssign]; exact sorted_setInsert _ _ hs
    · simp only [keys_mapAssign, hk]
    · simp only [ox_fdset_add, hf]
    · simp only [keys_mapAssign, mem_setInsert]
      rintro (h1 | h1)
      · exact c.1 h1.symm
      · exact hn h1
  · rw [c.2.2]; exact InSync_of_fields h rfl rfl rfl
  · rw [c.2.2]; exact InSync_of_fields h rfl rfl rfl

theorem pollLoop_inSync (P : Platform) (l : List AsyncConnectAddr) :
    ∀ (env : Nat → ConnectResp) (s : ThreadConnector),
      InSync s → InSync (pollLoop P env l s) := by
  induction l with
  | nil => intro env s h; exact InSync_of_fields h rfl rfl rfl
  | cons a rest ih =>
    intro env s h
    unfold pollLoop
    split
    · exact ih _ _ (pollOne_inSync P _ _ _ (InSync_of_fields h rfl rfl rfl))
    · exact InSync_of_fields h rfl rfl rfl

theorem checkConnectStatus_inSync (P : Platform) (r : PollResult) (s : ThreadConnector)
    (h : InSync s) : InSync (checkConnectStatus P r s) := by
  by_cases hp : 0 < r.ret
  · rw [checkConnectStatus_eq P r s hp h.1]
    exact InSync_filter h (fun x => decide (x ∉ (collect P r s).complete_fds)) rfl rfl rfl
  · have : r.ret ≤ 0 := by omega
    simp only [checkConnectStatus, this, if_true]
    exact h

theorem checkTimeout_inSync (now : Int) (s : ThreadConnector) (h : InSync s) :
    InSync (checkTimeout now s) := by
  simp only [checkTimeout, checkTimeoutLoop_eq]
  exact InSync_filter h
    (fun x => decide (x ∉ keys (s.mConnectingInfos.filter (expired now)))) rfl rfl rfl

theorem destroy_inSync (s : ThreadConnector) : InSync (destroy s) := by
  simp [InSync, destroy, keys, Sorted]

theorem step_inSync (P : Platform) (s : ThreadConnector) (o : Op) (h : InSync s) :
    InSync (step P s o) := by
  cases o with
  | checkConnectStatus r => exact checkConnectStatus_inSync P r s h
  | pollConnectRequest arrived env => exact pollLoop_inSync P _ env s h
  | checkTimeout now => exact checkTimeout_inSync now s h
  | destroy => exact destroy_inSync s

theorem run_inSync (P : Platform) (ops : List Op) :
    ∀ s : ThreadConnector, InSync s → InSync (runOps P s ops) := by
  induction ops with
  | nil => intro s h; exact h
  | cons o rest ih => intro s h; exact ih _ (step_inSync P s o h)

/-- C9. Starting from the empty state, after every sequence of operations
(`pollConnectRequest`, `checkConnectStatus`, `checkTimeout`, `destroy`, with whatever the
environment answers) the key set of the connecting map equals the in-flight fd set, and
both equal the set of fds registered in the readiness set (after `destroy` all three are
empty); the keys are strictly increasing, so the equalities hold as sets. -/
theorem records_stay_in_sync (P : Platform) (ops : List Op) :
    keys (runOps P ThreadConnector.init ops).mConnectingInfos
      = (runOps P ThreadConnector.init ops).mConnectingFds ∧
    (runOps P ThreadConnector.init ops).mConnectingFds = (runOps P ThreadConnector.init ops).mFDSet ∧
    (keys (runOps P ThreadConnector.init ops).mConnectingInfos).Nodup := by
  have h := run_inSync P ops ThreadConnector.init InSync_init
  exact ⟨h.2.1, h.2.2.1, h.1.nodup⟩

theorem runIteration_eq_runOps (P : Platform) (r : PollResult)
    (arrived : List AsyncConnectAddr) (env : Nat → ConnectResp) (now : Int)
    (s : ThreadConnector) :
    runIteration P r arrived env now s
      = runOps P s
          [Op.checkConnectStatus r, Op.pollConnectRequest arrived env, Op.checkTimeout now] :=
  rfl

/-- C9 on the sample iteration followed by `destroy`, and on the sample iteration alone,
after which nothing is in flight. -/
theorem records_stay_in_sync_witness :
    (keys (runOps samplePlatform ThreadConnector.init
        (sampleOps ++ [Op.destroy])).mConnectingInfos
      = (runOps samplePlatform ThreadConnector.init (sampleOps ++ [Op.destroy])).mConnectingFds ∧
    (runOps samplePlatform ThreadConnector.init (sampleOps ++ [Op.destroy])).mConnectingFds
      = (runOps samplePlatform ThreadConnector.init (sampleOps ++ [Op.destroy])).mFDSet ∧
    (keys (runOps samplePlatform ThreadConnector.init
      (sampleOps ++ [Op.destroy])).mConnectingInfos).Nodup) ∧
    (runOps samplePlatform ThreadConnector.init sampleOps).mFDSet = [] :=
  ⟨records_stay_in_sync samplePlatform (sampleOps ++ [Op.destroy]), by decide⟩

/-! ## Accounting for uids and for sockets -/

theorem uidsReported_append (a b : List Event) :
    uidsReported (a ++ b) = uidsReported a + uidsReported b := by
  simp [uidsReported, callbacks_append]

theorem uidsPopped_append (a b : List Event) :
    uidsPopped (a ++ b) = uidsPopped a + uidsPopped b := by
  simp [uidsPopped, popped_append]

theorem handed_append (a b : List Event) : handed (a ++ b) = handed a ++ handed b := by
  simp [handed, callbacks_append]

theorem uidsInFlight_split (p : Int × ConnectingInfo → Bool) (m : List (Int × ConnectingInfo)) :
    uidsInFlight m = uidsInFlight (m.filter p) + uidsInFlight (m.filter (fun e => !p e)) := by
  simp only [uidsInFlight, Multiset.coe_add, Multiset.coe_eq_coe, ← List.map_append]
  exact ((List.filter_append_perm p m).map _).symm

theorem keys_split (p : Int × ConnectingInfo → Bool) (m : List (Int × ConnectingInfo)) :
    ((keys m : List Int) : Multiset Int)
      = ((keys (m.filter p) : List Int) : Multiset Int)
        + ((keys (m.filter (fun e => !p e)) : List Int) : Multiset Int) := by
  simp only [keys, Multiset.coe_add, Multiset.coe_eq_coe, ← List.map_append]
  exact ((List.filter_append_perm p m).map _).symm

theorem mapAssign_perm (k : Int) (v : ConnectingInfo) (m : List (Int × ConnectingInfo))
    (h : k ∉ keys m) : List.Perm (mapAssign k v m) ((k, v) :: m) := by
  induction m with
  | nil => simp [mapAssign]
  | cons a t ih =>
    obtain ⟨k', v'⟩ := a
    have hk : k ≠ k' := by
      intro hk; apply h; simp [keys, hk]
    have ht : k ∉ keys t := by
      intro hk'; apply h; simp only [keys, List.map_cons, List.mem_cons]; exact Or.inr hk'
    unfold mapAssign
    split_ifs with h1
    · exact List.Perm.refl _
    · exact ((ih ht).cons _).trans (List.Perm.swap _ _ _)

theorem checkTimeout_infos (now : Int) (s : ThreadConnector)
    (hs : Sorted (keys s.mConnectingInfos)) :
    (checkTimeout now s).mConnectingInfos
      = s.mConnectingInfos.filter (fun e => !expired now e) := by
  simp only [checkTimeout, checkTimeoutLoop_eq]
  apply List.filter_congr
  intro e he
  have := mem_keys_filter hs (expired now) he
  by_cases hx : expired now e = true
  · simp [this, hx]
  · simp [this, hx]

theorem checkTimeout_trace (now : Int) (s : ThreadConnector) :
    (checkTimeout now s).trace
      = s.trace ++ (s.mConnectingInfos.filter (expired now)).flatMap expiryEvents := by
  simp only [checkTimeout, checkTimeoutLoop_eq]

theorem callbacks_expiryEvents (l : List (Int × ConnectingInfo)) :
    callbacks (l.flatMap expiryEvents) = l.map (fun e => (SOCKET_ERROR, e.2.uid)) := by
  induction l with
  | nil => rfl
  | cons a t ih =>
    simp only [List.flatMap_cons, callbacks_append, ih, List.map_cons]
    simp [expiryEvents, callbacks]

theorem closed_expiryEvents (l : List (Int × ConnectingInfo)) :
    closed (l.flatMap expiryEvents) = keys l := by
  induction l with
  | nil => rfl
  | cons a t ih =>
    simp only [List.flatMap_cons, closed_append, ih, keys, List.map_cons]
    simp [expiryEvents, closed]

theorem popped_expiryEvents (l : List (Int × ConnectingInfo)) :
    popped (l.flatMap expiryEvents) = [] := by
  induction l with
  | nil => rfl
  | cons a t ih =>
    simp only [List.flatMap_cons, popped_append, ih]
    simp [expiryEvents, popped]

theorem created_expiryEvents (l : List (Int × ConnectingInfo)) :
    created (l.flatMap expiryEvents) = [] := by
  induction l with
  | nil => rfl
  | cons a t ih =>
    simp only [List.flatMap_cons, created_append, ih]
    simp [expiryEvents, created]

theorem uidsReported_expiryEvents (l : List (Int × ConnectingInfo)) :
    uidsReported (l.flatMap expiryEvents) = uidsInFlight l := by
  have : (callbacks (l.flatMap expiryEvents)).map Prod.snd = l.map (fun e => e.2.uid) := by
    rw [callbacks_expiryEvents, List.map_map]; rfl
  simp only [uidsReported, uidsInFlight, this]

theorem uidsReported_completeEvents (f : List Int) (l : List (Int × ConnectingInfo)) :
    uidsReported (l.flatMap (completeEvents f)) = uidsInFlight l := by
  have : (callbacks (l.flatMap (completeEvents f))).map Prod.snd
      = l.map (fun e => e.2.uid) := by
    rw [callbacks_completeEvents, List.map_map]; rfl
  simp only [uidsReported, uidsInFlight, this]

theorem checkTimeout_uids (now : Int) (s : ThreadConnector)
    (hs : Sorted (keys s.mConnectingInfos))
    (h : uidsReported s.trace + uidsInFlight s.mConnectingInfos = uidsPopped s.trace) :
    uidsReported (checkTimeout now s).trace + uidsInFlight (checkTimeout now s).mConnectingInfos
      = uidsPopped (checkTimeout now s).trace := by
  rw [checkTimeout_infos now s hs, checkTimeout_trace, uidsReported_append, uidsPopped_append]
  have h2 : uidsPopped ((s.mConnectingInfos.filter (expired now)).flatMap expiryEvents) = 0 := by
    simp [uidsPopped, popped_expiryEvents]
  rw [uidsReported_expiryEvents, h2, add_zero, ← h,
    uidsInFlight_split (expired now) s.mConnectingInfos, add_assoc]

theorem checkConnectStatus_uids (P : Platform) (r : PollResult) (s : ThreadConnector)
    (hs : Sorted (keys s.mConnectingInfos))
    (h : uidsReported s.trace + uidsInFlight s.mConnectingInfos = uidsPopped s.trace) :
    uidsReported (checkConnectStatus P r s).trace
        + uidsInFlight (checkConnectStatus P r s).mConnectingInfos
      = uidsPopped (checkConnectStatus P r s).trace := by
  by_cases hp : 0 < r.ret
  · rw [checkConnectStatus_eq P r s hp hs]
    simp only [uidsReported_append, uidsPopped_append]
    have h2 : ∀ l : List (Int × ConnectingInfo),
        uidsPopped (l.flatMap (completeEvents (collect P r s).failed_fds)) = 0 := by
      intro l
      simp [uidsPopped, popped_completeEvents]
    have h3 := uidsInFlight_split
      (fun e => decide (e.1 ∈ (collect P r s).complete_fds)) s.mConnectingInfos
    have h4 : s.mConnectingInfos.filter
          (fun e => !decide (e.1 ∈ (collect P r s).complete_fds))
        = s.mConnectingInfos.filter
          (fun e => decide (e.1 ∉ (collect P r s).complete_fds)) := by
      apply List.filter_congr; intro e _; simp
    rw [uidsReported_completeEvents, h2, add_zero, ← h, h3, h4, add_assoc]
  · have : r.ret ≤ 0 := by omega
    simp only [checkConnectStatus, this, if_true]
    exact h

theorem pollOne_uids (P : Platform) (r : ConnectResp) (addr : AsyncConnectAddr)
    (s : ThreadConnector)
    (hfresh : r.sock = SOCKET_ERROR ∨ r.sock ∉ keys s.mConnectingInfos)
    (h : uidsReported s.trace + uidsInFlight s.mConnectingInfos = uidsPopped s.trace) :
    uidsReported (pollOne P r addr { s with trace := s.trace ++ [Event.pop addr] }).trace
        + uidsInFlight
            (pollOne P r addr { s with trace := s.trace ++ [Event.pop addr] }).mConnectingInfos
      = uidsPopped (pollOne P r addr { s with trace := s.trace ++ [Event.pop addr] }).trace := by
  have p1 : uidsPopped [Event.pop addr] = {addr.uid} := rfl
  have p2 : uidsReported [Event.pop addr] = 0 := rfl
  have r1 : ∀ a b : Int,
      uidsReported [Event.create a, Event.callback b addr.uid] = {addr.uid} := fun _ _ => rfl
  have r2 : ∀ a : Int, uidsPopped [Event.create a, Event.callback SOCKET_ERROR addr.uid] = 0 :=
    fun _ => rfl
  have r3 : ∀ a : Int, uidsReported
      [Event.create a, Event.close a, Event.callback SOCKET_ERROR addr.uid] = {addr.uid} :=
    fun _ => rfl
  have r4 : ∀ a : Int, uidsPopped
      [Event.create a, Event.close a, Event.callback SOCKET_ERROR addr.uid] = 0 := fun _ => rfl
  have r5 : ∀ a : Int, uidsReported [Event.create a] = 0 := fun _ => rfl
  have r6 : ∀ a : Int, uidsPopped [Event.create a] = 0 := fun _ => rfl
  have r7 : ∀ a : Int, uidsPopped [Event.create a, Event.callback a addr.uid] = 0 :=
    fun _ => rfl
  rcases pollOne_cases P r addr { s with trace := s.trace ++ [Event.pop addr] }
    with c | c | c | c | c
  · rw [c.2]
    simp only [uidsReported_append, uidsPopped_append, p1, p2, r1, r2]
    rw [← h]; abel
  · rw [c.2.2.2]
    simp only [uidsReported_append, uidsPopped_append, p1, p2, r3, r4]
    rw [← h]; abel
  · rw [c.2.2.2]
    have hk : r.sock ∉ keys s.mConnectingInfos := by
      rcases hfresh with h1 | h1
      · exact absurd h1 c.1
      · exact h1
    have hperm := mapAssign_perm r.sock
      { startConnectTime := r.now, uid := addr.uid, timeout := addr.timeout }
      s.mConnectingInfos hk
    have hin : uidsInFlight (mapAssign r.sock
        { startConnectTime := r.now, uid := addr.uid, timeout := addr.timeout }
        s.mConnectingInfos) = {addr.uid} + uidsInFlight s.mConnectingInfos := by
      simp only [uidsInFlight]
      rw [Multiset.coe_eq_coe.2 (hperm.map _)]
      rfl
    simp only [uidsReported_append, uidsPopped_append, p1, p2, r5, r6, hin]
    rw [← h]; abel
  · rw [c.2.2]
    simp only [uidsReported_append, uidsPopped_append, p1, p2, r1, r7]
    rw [← h]; abel
  · rw [c.2.2]
    simp only [uidsReported_append, uidsPopped_append, p1, p2, r1, r2]
    rw [← h]; abel

theorem pollLoop_uids (P : Platform) (l : List AsyncConnectAddr) :
    ∀ (env : Nat → ConnectResp) (s : ThreadConnector),
      pollFresh P env l s = true →
      uidsReported s.trace + uidsInFlight s.mConnectingInfos = uidsPopped s.trace →
      uidsReported (pollLoop P env l s).trace + uidsInFlight (pollLoop P env l s).mConnectingInfos
        = uidsPopped (pollLoop P env l s).trace := by
  induction l with
  | nil => intro env s _ h; simpa [pollLoop] using h
  | cons a rest ih =>
    intro env s hf h
    unfold pollLoop
    unfold pollFresh at hf
    split
    · rename_i hlt
      simp only [hlt, if_true, Bool.and_eq_true, Bool.or_eq_true, decide_eq_true_eq] at hf
      exact ih _ _ hf.2 (pollOne_uids P (env 0) a s hf.1 h)
    · simpa using h

theorem run_uids (P : Platform) (ops : List Op) :
    ∀ s : ThreadConnector, InSync s → (∀ o ∈ ops, o.isRunLoop = true) →
      runFresh P s ops = true →
      uidsReported s.trace + uidsInFlight s.mConnectingInfos = uidsPopped s.trace →
      uidsReported (runOps P s ops).trace + uidsInFlight (runOps P s ops).mConnectingInfos
        = uidsPopped (runOps P s ops).trace := by
  induction ops with
  | nil => intro s _ _ _ h; exact h
  | cons o rest ih =>
    intro s hsync hloop hf h
    simp only [runFresh, Bool.and_eq_true] at hf
    have hrest : ∀ o' ∈ rest, o'.isRunLoop = true :=
      fun o' ho' => hloop o' (List.mem_cons_of_mem _ ho')
    have ho := hloop o (List.mem_cons_self _ _)
    refine ih (step P s o) (step_inSync P s o hsync) hrest hf.2 ?_
    cases o with
    | checkConnectStatus r => exact checkConnectStatus_uids P r s hsync.1 h
    | pollConnectRequest arrived env => exact pollLoop_uids P _ env s hf.1 h
    | checkTimeout now => exact checkTimeout_uids now s hsync.1 h
    | destroy => simp [Op.isRunLoop] at ho

/-- C8. No connect request is reported twice and every reported uid was supplied: after
every run of connector iterations (`checkConnectStatus`, `pollConnectRequest`,
`checkTimeout`, in any number and order, from the empty state), assuming each newly
created socket fd is not at that moment a key of the connecting map, the multiset of uids
passed to the result callback plus the multiset of uids held in the connecting map equals
the multiset of uids of the requests popped from the queue so far. -/
theorem every_request_reported_once (P : Platform) (ops : List Op)
    (hloop : ∀ o ∈ ops, o.isRunLoop = true)
    (hfresh : runFresh P ThreadConnector.init ops = true) :
    uidsReported (runOps P ThreadConnector.init ops).trace
        + uidsInFlight (runOps P ThreadConnector.init ops).mConnectingInfos
      = uidsPopped (runOps P ThreadConnector.init ops).trace :=
  run_uids P ops ThreadConnector.init InSync_init hloop hfresh rfl

/-- C8 on the sample iteration: uid 11 is reported (connected), uid 22 is reported (timed
out), uid 33 was not popped. -/
theorem every_request_reported_once_witness :
    ((∀ o ∈ sampleOps, o.isRunLoop = true) ∧
      runFresh samplePlatform ThreadConnector.init sampleOps = true) ∧
    uidsReported (runOps samplePlatform ThreadConnector.init sampleOps).trace
        + uidsInFlight (runOps samplePlatform ThreadConnector.init sampleOps).mConnectingInfos
      = uidsPopped (runOps samplePlatform ThreadConnector.init sampleOps).trace ∧
    callbacks (runOps samplePlatform ThreadConnector.init sampleOps).trace
      = [((5 : Int), (11 : Int)), (-1, 22)] :=
  ⟨⟨by decide, by decide⟩,
   every_request_reported_once samplePlatform sampleOps (by decide) (by decide),
   by decide⟩

theorem closedBeforeFailure_append (a b : List Event) (hb : SelfContained b) :
    ∀ q : Option Event, closedBeforeFailure q a = true →
      closedBeforeFailure q (a ++ b) = true := by
  induction a with
  | nil => intro q _; exact hb q
  | cons e t ih =>
    intro q h
    simp only [closedBeforeFailure, Bool.and_eq_true, List.cons_append] at h ⊢
    exact ⟨h.1, ih _ h.2⟩

theorem SelfContained.append {a b : List Event} (ha : SelfContained a) (hb : SelfContained b) :
    SelfContained (a ++ b) :=
  fun q => closedBeforeFailure_append a b hb q (ha q)

theorem SelfContained.flatMap {α : Type} (g : α → List Event) (l : List α)
    (h : ∀ e ∈ l, SelfContained (g e)) : SelfContained (l.flatMap g) := by
  induction l with
  | nil => intro q; rfl
  | cons a t ih =>
    rw [List.flatMap_cons]
    exact (h a (List.mem_cons_self _ _)).append
      (ih (fun e he => h e (List.mem_cons_of_mem _ he)))

theorem selfContained_expiryEvents (e : Int × ConnectingInfo) :
    SelfContained (expiryEvents e) := by
  intro q
  simp [expiryEvents, closedBeforeFailure, reportOK]

theorem selfContained_completeEvents (f : List Int) (e : Int × ConnectingInfo)
    (h : e.1 ≠ SOCKET_ERROR) : SelfContained (completeEvents f e) := by
  intro q
  by_cases hf : e.1 ∈ f
  · simp [completeEvents, hf, closedBeforeFailure, reportOK]
  · simp [completeEvents, hf, closedBeforeFailure, reportOK, h]

theorem handed_expiryEvents (l : List (Int × ConnectingInfo)) :
    handed (l.flatMap expiryEvents) = [] := by
  simp only [handed, callbacks_expiryEvents, List.map_eq_nil_iff, List.filter_eq_nil_iff]
  intro c hc
  obtain ⟨e, _, rfl⟩ := List.mem_map.1 hc
  simp

theorem handed_closed_completeEvents (f : List Int) (l : List (Int × ConnectingInfo))
    (h : ∀ e ∈ l, e.1 ≠ SOCKET_ERROR) :
    ((handed (l.flatMap (completeEvents f)) : List Int) : Multiset Int)
        + ((closed (l.flatMap (completeEvents f)) : List Int) : Multiset Int)
      = ((keys l : List Int) : Multiset Int) := by
  induction l with
  | nil => rfl
  | cons a t ih =>
    have iht := ih (fun e he => h e (List.mem_cons_of_mem _ he))
    have ha := h a (List.mem_cons_self _ _)
    have hk : ((keys (a :: t) : List Int) : Multiset Int)
        = {a.1} + ((keys t : List Int) : Multiset Int) := rfl
    rw [List.flatMap_cons, handed_append, closed_append, ← Multiset.coe_add, ← Multiset.coe_add,
      hk, ← iht]
    by_cases hf : a.1 ∈ f
    · have h1 : handed (completeEvents f a) = [] := by
        simp [completeEvents, hf, handed, callbacks, SOCKET_ERROR]
      have h2 : closed (completeEvents f a) = [a.1] := by
        simp [completeEvents, hf, closed]
      rw [h1, h2]
      simp only [Multiset.coe_nil, zero_add, Multiset.coe_singleton]
      abel
    · have h1 : handed (completeEvents f a) = [a.1] := by
        simp [completeEvents, hf, handed, callbacks, ha]
      have h2 : closed (completeEvents f a) = [] := by
        simp [completeEvents, hf, closed]
      rw [h1, h2]
      simp only [Multiset.coe_nil, zero_add, Multiset.coe_singleton]
      abel

theorem checkTimeout_sockets (now : Int) (s : ThreadConnector) (hs : InSync s)
    (h : SocketsBalanced s) : SocketsBalanced (checkTimeout now s) := by
  unfold SocketsBalanced at h ⊢
  rw [checkTimeout_infos now s hs.1, checkTimeout_trace, created_append, handed_append,
    closed_append, created_expiryEvents, handed_expiryEvents, closed_expiryEvents,
    List.append_nil, List.append_nil, h, keys_split (expired now) s.mConnectingInfos,
    ← Multiset.coe_add (closed s.trace)]
  abel

theorem checkTimeout_closedBefore (now : Int) (s : ThreadConnector)
    (h : closedBeforeFailure none s.trace = true) :
    closedBeforeFailure none (checkTimeout now s).trace = true := by
  rw [checkTimeout_trace]
  exact closedBeforeFailure_append _ _
    (SelfContained.flatMap _ _ (fun e _ => selfContained_expiryEvents e)) _ h

theorem checkConnectStatus_sockets (P : Platform) (r : PollResult) (s : ThreadConnector)
    (hs : InSync s) (h : SocketsBalanced s) : SocketsBalanced (checkConnectStatus P r s) := by
  by_cases hp : 0 < r.ret
  · unfold SocketsBalanced at h ⊢
    rw [checkConnectStatus_eq P r s hp hs.1]
    simp only [created_append, handed_append, closed_append, created_completeEvents,
      List.append_nil]
    have hne : ∀ e ∈ s.mConnectingInfos.filter
        (fun e => decide (e.1 ∈ (collect P r s).complete_fds)), e.1 ≠ SOCKET_ERROR := by
      intro e he hk
      exact hs.2.2.2 (List.mem_map.2 ⟨e, (List.mem_filter.1 he).1, hk⟩)
    have h1 := handed_closed_completeEvents (collect P r s).failed_fds _ hne
    have h3 := keys_split
      (fun e => decide (e.1 ∈ (collect P r s).complete_fds)) s.mConnectingInfos
    have h4 : s.mConnectingInfos.filter
          (fun e => !decide (e.1 ∈ (collect P r s).complete_fds))
        = s.mConnectingInfos.filter
          (fun e => decide (e.1 ∉ (collect P r s).complete_fds)) := by
      apply List.filter_congr; intro e _; simp
    rw [h4] at h3
    rw [h, h3, ← h1, ← Multiset.coe_add (handed s.trace), ← Multiset.coe_add (closed s.trace)]
    abel
  · have : r.ret ≤ 0 := by omega
    simp only [checkConnectStatus, this, if_true]
    exact h

theorem checkConnectStatus_closedBefore (P : Platform) (r : PollResult) (s : ThreadConnector)
    (hs : InSync s) (h : closedBeforeFailure none s.trace = true) :
    closedBeforeFailure none (checkConnectStatus P r s).trace = true := by
  by_cases hp : 0 < r.ret
  · rw [checkConnectStatus_eq P r s hp hs.1]
    refine closedBeforeFailure_append _ _ (SelfContained.flatMap _ _ ?_) _ h
    intro e he
    apply selfContained_completeEvents
    intro hk
    exact hs.2.2.2 (List.mem_map.2 ⟨e, (List.mem_filter.1 he).1, hk⟩)
  · have : r.ret ≤ 0 := by omega
    simp only [checkConnectStatus, this, if_true]
    exact h

theorem pollOne_sockets (P : Platform) (r : ConnectResp) (addr : AsyncConnectAddr)
    (s : ThreadConnector) (hn : r.n ≤ 0)
    (hfresh : r.sock = SOCKET_ERROR ∨ r.sock ∉ keys s.mConnectingInfos)
    (h : SocketsBalanced s) :
    SocketsBalanced (pollOne P r addr { s with trace := s.trace ++ [Event.pop addr] }) := by
  unfold SocketsBalanced at h ⊢
  have p1 : created [Event.pop addr] = [] := rfl
  have p2 : handed [Event.pop addr] = [] := rfl
  have p3 : closed [Event.pop addr] = [] := rfl
  rcases pollOne_cases P r addr { s with trace := s.trace ++ [Event.pop addr] }
    with c | c | c | c | c
  · rw [c.2]
    have e1 : created [Event.create r.sock, Event.callback SOCKET_ERROR addr.uid] = [] := by
      simp [created, c.1]
    have e2 : handed [Event.create r.sock, Event.callback SOCKET_ERROR addr.uid] = [] := by
      simp [handed, callbacks]
    have e3 : closed [Event.create r.sock, Event.callback SOCKET_ERROR addr.uid] = [] := rfl
    simp only [created_append, handed_append, closed_append, p1, p2, p3, e1, e2, e3,
      List.append_nil]
    exact h
  · rw [c.2.2.2]
    have e1 : created
        [Event.create r.sock, Event.close r.sock, Event.callback SOCKET_ERROR addr.uid]
        = [r.sock] := by
      simp [created, c.1]
    have e2 : handed
        [Event.create r.sock, Event.close r.sock, Event.callback SOCKET_ERROR addr.uid]
        = [] := by
      simp [handed, callbacks]
    have e3 : closed
        [Event.create r.sock, Event.close r.sock, Event.callback SOCKET_ERROR addr.uid]
        = [r.sock] := rfl
    simp only [created_append, handed_append, closed_append, p1, p2, p3, e1, e2, e3,
      List.append_nil, ← Multiset.coe_add]
    rw [h]
    abel
  · rw [c.2.2.2]
    have hk : r.sock ∉ keys s.mConnectingInfos := by
      rcases hfresh with h1 | h1
      · exact absurd h1 c.1
      · exact h1
    have hperm := mapAssign_perm r.sock
      { startConnectTime := r.now, uid := addr.uid, timeout := addr.timeout }
      s.mConnectingInfos hk
    have hin : ((keys (mapAssign r.sock
        { startConnectTime := r.now, uid := addr.uid, timeout := addr.timeout }
        s.mConnectingInfos) : List Int) : Multiset Int)
        = ((keys s.mConnectingInfos : List Int) : Multiset Int)
          + (([r.sock] : List Int) : Multiset Int) := by
      simp only [keys]
      rw [Multiset.coe_eq_coe.2 (hperm.map _), Multiset.coe_add, Multiset.coe_eq_coe]
      simp only [List.map_cons]
      exact (List.perm_append_singleton _ _).symm
    have e1 : created [Event.create r.sock] = [r.sock] := by simp [created, c.1]
    have e2 : handed [Event.create r.sock] = [] := rfl
    have e3 : closed [Event.create r.sock] = [] := rfl
    simp only [created_append, handed_append, closed_append, p1, p2, p3, e1, e2, e3,
      List.append_nil, ← Multiset.coe_add, hin]
    rw [h]
    abel
  · rw [c.2.2]
    have e1 : created [Event.create r.sock, Event.callback r.sock addr.uid] = [r.sock] := by
      simp [created, c.1]
    have e2 : handed [Event.create r.sock, Event.callback r.sock addr.uid] = [r.sock] := by
      simp [handed, callbacks, c.1]
    have e3 : closed [Event.create r.sock, Event.callback r.sock addr.uid] = [] := rfl
    simp only [created_append, handed_append, closed_append, p1, p2, p3, e1, e2, e3,
      List.append_nil, ← Multiset.coe_add]
    rw [h]
    abel
  · omega

theorem pollOne_closedBefore (P : Platform) (r : ConnectResp) (addr : AsyncConnectAddr)
    (s : ThreadConnector) (hn : r.n ≤ 0)
    (h : closedBeforeFailure none s.trace = true) :
    closedBeforeFailure none
      (pollOne P r addr { s with trace := s.trace ++ [Event.pop addr] }).trace = true := by
  have hpop : closedBeforeFailure none (s.trace ++ [Event.pop addr]) = true :=
    closedBeforeFailure_append _ _ (fun q => by simp [closedBeforeFailure, reportOK]) _ h
  rcases pollOne_cases P r addr { s with trace := s.trace ++ [Event.pop addr] }
    with c | c | c | c | c
  · rw [c.2]
    refine closedBeforeFailure_append _ _ ?_ _ hpop
    intro q; simp [closedBeforeFailure, reportOK, c.1]
  · rw [c.2.2.2]
    refine closedBeforeFailure_append _ _ ?_ _ hpop
    intro q; simp [closedBeforeFailure, reportOK]
  · rw [c.2.2.2]
    refine closedBeforeFailure_append _ _ ?_ _ hpop
    intro q; simp [closedBeforeFailure, reportOK]
  · rw [c.2.2]
    refine closedBeforeFailure_append _ _ ?_ _ hpop
    intro q; simp [closedBeforeFailure, reportOK, c.1]
  · omega

theorem pollLoop_sockets (P : Platform) (l : List AsyncConnectAddr) :
    ∀ (env : Nat → ConnectResp) (s : ThreadConnector),
      (∀ i, (env i).n ≤ 0) → pollFresh P env l s = true →
      SocketsBalanced s ∧ closedBeforeFailure none s.trace = true →
      SocketsBalanced (pollLoop P env l s) ∧
        closedBeforeFailure none (pollLoop P env l s).trace = true := by
  induction l with
  | nil => intro env s _ _ h; simpa [pollLoop, SocketsBalanced] using h
  | cons a rest ih =>
    intro env s hn hf h
    unfold pollLoop
    unfold pollFresh at hf
    split
    · rename_i hlt
      simp only [hlt, if_true, Bool.and_eq_true, Bool.or_eq_true, decide_eq_true_eq] at hf
      exact ih _ _ (fun i => hn (i + 1)) hf.2
        ⟨pollOne_sockets P (env 0) a s (hn 0) hf.1 h.1,
         pollOne_closedBefore P (env 0) a s (hn 0) h.2⟩
    · simpa [SocketsBalanced] using h

theorem run_sockets (P : Platform) (ops : List Op) :
    ∀ s : ThreadConnector, InSync s → (∀ o ∈ ops, o.isRunLoop = true) →
      (∀ o ∈ ops, connectReturnsOK o) → runFresh P s ops = true →
      SocketsBalanced s ∧ closedBeforeFailure none s.trace = true →
      SocketsBalanced (runOps P s ops) ∧ closedBeforeFailure none (runOps P s ops).trace = true := by
  induction ops with
  | nil => intro s _ _ _ _ h; exact h
  | cons o rest ih =>
    intro s hsync hloop hconn hf h
    simp only [runFresh, Bool.and_eq_true] at hf
    have hrest : ∀ o' ∈ rest, o'.isRunLoop = true :=
      fun o' ho' => hloop o' (List.mem_cons_of_mem _ ho')
    have hcrest : ∀ o' ∈ rest, connectReturnsOK o' :=
      fun o' ho' => hconn o' (List.mem_cons_of_mem _ ho')
    have ho := hloop o (List.mem_cons_self _ _)
    have hc := hconn o (List.mem_cons_self _ _)
    refine ih (step P s o) (step_inSync P s o hsync) hrest hcrest hf.2 ?_
    cases o with
    | checkConnectStatus r =>
      exact ⟨checkConnectStatus_sockets P r s hsync h.1,
        checkConnectStatus_closedBefore P r s hsync h.2⟩
    | pollConnectRequest arrived env => exact pollLoop_sockets P _ env s hc hf.1 h
    | checkTimeout now =>
      exact ⟨checkTimeout_sockets now s hsync h.1, checkTimeout_closedBefore now s h.2⟩
    | destroy => simp [Op.isRunLoop] at ho

theorem pollOne_failure_after_close (P : Platform) (r : ConnectResp) (addr : AsyncConnectAddr)
    (s : ThreadConnector) (hs : r.sock ≠ SOCKET_ERROR) (hn : r.n ≤ 0) (evs : List Event)
    (ht : (pollOne P r addr s).trace = s.trace ++ evs)
    (hf : (SOCKET_ERROR, addr.uid) ∈ callbacks evs) :
    evs = [Event.create r.sock, Event.close r.sock, Event.callback SOCKET_ERROR addr.uid] := by
  rcases pollOne_cases P r addr s with c | c | c | c | c
  · exact absurd c.1 hs
  · rw [c.2.2.2] at ht
    exact (List.append_cancel_left ht).symm
  · rw [c.2.2.2] at ht
    have := List.append_cancel_left ht
    rw [← this] at hf
    simp [callbacks] at hf
  · rw [c.2.2] at ht
    have := List.append_cancel_left ht
    rw [← this] at hf
    simp only [callbacks, List.mem_singleton, Prod.mk.injEq] at hf
    exact absurd hf.1.symm hs
  · omega

/-- C10. The run loop leaks no socket: assuming `connect` returns only 0 or a negative
value (and, as the operating system guarantees, that `ox_socket_create` never returns an fd
that is still a key of the connecting map), after every sequence of run-loop operations
from the empty state the sockets created so far are, counted with multiplicity, exactly
the keys of the connecting map, the fds handed to the callback as a success and the fds
closed (each created socket is in exactly one of the three states); and every callback
with the failure value comes right after the close of a socket, or right after a socket
creation that failed.  The socket closed is the one the report is about: a request whose
socket was created and which is reported as failed produces the events create, close of
that socket, callback; an entry that times out or whose connect failed produces the close
of its fd followed by its callback. -/
theorem run_loop_leaks_no_socket (P : Platform) (ops : List Op)
    (hloop : ∀ o ∈ ops, o.isRunLoop = true)
    (hconn : ∀ o ∈ ops, connectReturnsOK o)
    (hfresh : runFresh P ThreadConnector.init ops = true) :
    (((created (runOps P ThreadConnector.init ops).trace : List Int) : Multiset Int)
      = ((keys (runOps P ThreadConnector.init ops).mConnectingInfos : List Int) : Multiset Int)
        + ((handed (runOps P ThreadConnector.init ops).trace : List Int) : Multiset Int)
        + ((closed (runOps P ThreadConnector.init ops).trace : List Int) : Multiset Int)) ∧
    closedBeforeFailure none (runOps P ThreadConnector.init ops).trace = true ∧
    (∀ (r : ConnectResp) (addr : AsyncConnectAddr) (s : ThreadConnector) (evs : List Event),
      r.sock ≠ SOCKET_ERROR → r.n ≤ 0 →
      (pollOne P r addr s).trace = s.trace ++ evs →
      (SOCKET_ERROR, addr.uid) ∈ callbacks evs →
      evs = [Event.create r.sock, Event.close r.sock,
        Event.callback SOCKET_ERROR addr.uid]) ∧
    (∀ (now : Int) (s : ThreadConnector),
      (checkTimeout now s).trace = s.trace ++
        (s.mConnectingInfos.filter
          (fun e => decide (now - e.2.startConnectTime ≥ e.2.timeout))).flatMap
          (fun e => [Event.close e.1, Event.callback SOCKET_ERROR e.2.uid])) ∧
    (∀ (r : PollResult) (s : ThreadConnector),
      0 < r.ret → Sorted (keys s.mConnectingInfos) →
      (checkConnectStatus P r s).trace = s.trace ++
        (s.mConnectingInfos.filter
          (fun e => decide (e.1 ∈ (collect P r s).complete_fds))).flatMap
          (fun e =>
            if e.1 ∈ (collect P r s).failed_fds then
              [Event.close e.1, Event.callback (-1) e.2.uid]
            else [Event.callback e.1 e.2.uid])) := by
  have h := run_sockets P ops ThreadConnector.init InSync_init hloop hconn hfresh ⟨rfl, rfl⟩
  refine ⟨h.1, h.2, ?_, ?_, ?_⟩
  · intro r addr s evs hs hn ht hf
    exact pollOne_failure_after_close P r addr s hs hn evs ht hf
  · intro now s
    exact checkTimeout_trace now s
  · intro r s hp hs
    rw [checkConnectStatus_eq P r s hp hs]
    rfl

/-- C10 on the sample iteration: sockets 5 and 6 were created; 5 was handed over, 6 was
closed. -/
theorem run_loop_leaks_no_socket_witness :
    ((∀ o ∈ sampleOps, o.isRunLoop = true) ∧ (∀ o ∈ sampleOps, connectReturnsOK o) ∧
      runFresh samplePlatform ThreadConnector.init sampleOps = true) ∧
    (((created (runOps samplePlatform ThreadConnector.init sampleOps).trace : List Int) :
        Multiset Int)
      = ((keys (runOps samplePlatform ThreadConnector.init sampleOps).mConnectingInfos :
          List Int) : Multiset Int)
        + ((handed (runOps samplePlatform ThreadConnector.init sampleOps).trace : List Int) :
          Multiset Int)
        + ((closed (runOps samplePlatform ThreadConnector.init sampleOps).trace : List Int) :
          Multiset Int) ∧
      closedBeforeFailure none (runOps samplePlatform ThreadConnector.init sampleOps).trace
        = true) ∧
    created (runOps samplePlatform ThreadConnector.init sampleOps).trace = [5, 6] ∧
    handed (runOps samplePlatform ThreadConnector.init sampleOps).trace = [5] ∧
    closed (runOps samplePlatform ThreadConnector.init sampleOps).trace = [6] :=
  have hconn : ∀ o ∈ sampleOps, connectReturnsOK o := by
    intro o ho
    simp only [sampleOps, List.mem_cons, List.mem_singleton, List.not_mem_nil, or_false] at ho
    rcases ho with rfl | rfl | rfl
    · intro i; simp [sampleEnv]
    · trivial
    · trivial
  ⟨⟨by decide, hconn, by decide⟩,
   ⟨(run_loop_leaks_no_socket samplePlatform sampleOps (by decide) hconn (by decide)).1,
    (run_loop_leaks_no_socket samplePlatform sampleOps (by decide) hconn (by decide)).2.1⟩,
   by decide, by decide, by decide⟩

/-! ## Which removals are reported -/

theorem pollOne_reports (P : Platform) (r : ConnectResp) (addr : AsyncConnectAddr)
    (s : ThreadConnector)
    (hfresh : r.sock = SOCKET_ERROR ∨ r.sock ∉ keys s.mConnectingInfos) :
    ∃ evs, (pollOne P r addr s).trace = s.trace ++ evs ∧ popped evs = [] ∧
      (∀ e ∈ s.mConnectingInfos, e ∈ (pollOne P r addr s).mConnectingInfos) ∧
      ((∃ v, (v, addr.uid) ∈ callbacks evs) ∨
        (∃ e ∈ (pollOne P r addr s).mConnectingInfos,
          e.1 ∉ keys s.mConnectingInfos ∧ e.2.uid = addr.uid ∧ e.2.timeout = addr.timeout)) := by
  rcases pollOne_cases P r addr s with c | c | c | c | c
  · rw [c.2]
    exact ⟨_, rfl, rfl, fun e he => he, Or.inl ⟨SOCKET_ERROR, by simp [callbacks]⟩⟩
  · rw [c.2.2.2]
    exact ⟨_, rfl, rfl, fun e he => he, Or.inl ⟨SOCKET_ERROR, by simp [callbacks]⟩⟩
  · rw [c.2.2.2]
    have hk : r.sock ∉ keys s.mConnectingInfos := by
      rcases hfresh with h1 | h1
      · exact absurd h1 c.1
      · exact h1
    have hperm := mapAssign_perm r.sock
      { startConnectTime := r.now, uid := addr.uid, timeout := addr.timeout }
      s.mConnectingInfos hk
    refine ⟨_, rfl, rfl, ?_, Or.inr ⟨(r.sock, _), hperm.mem_iff.2 (List.mem_cons_self _ _),
      hk, rfl, rfl⟩⟩
    intro e he
    exact hperm.mem_iff.2 (List.mem_cons_of_mem _ he)
  · rw [c.2.2]
    exact ⟨_, rfl, rfl, fun e he => he, Or.inl ⟨r.sock, by simp [callbacks]⟩⟩
  · rw [c.2.2]
    exact ⟨_, rfl, rfl, fun e he => he, Or.inl ⟨SOCKET_ERROR, by simp [callbacks]⟩⟩

theorem pollLoop_reports (P : Platform) (l : List AsyncConnectAddr) :
    ∀ (env : Nat → ConnectResp) (s : ThreadConnector),
      pollFresh P env l s = true →
      ∃ evs, (pollLoop P env l s).trace = s.trace ++ evs ∧
        (∀ e ∈ s.mConnectingInfos, e ∈ (pollLoop P env l s).mConnectingInfos) ∧
        (∀ a ∈ popped evs,
          (∃ v, (v, a.uid) ∈ callbacks evs) ∨
          (∃ e ∈ (pollLoop P env l s).mConnectingInfos,
            e.1 ∉ keys s.mConnectingInfos ∧ e.2.uid = a.uid ∧ e.2.timeout = a.timeout)) := by
  induction l with
  | nil =>
    intro env s _
    exact ⟨[], by simp [pollLoop], fun e he => by simpa [pollLoop] using he,
      fun a ha => by simp [popped] at ha⟩
  | cons a rest ih =>
    intro env s hf
    unfold pollFresh at hf
    by_cases hlt : s.mConnectingFds.length < P.FD_SETSIZE
    · simp only [hlt, if_true, Bool.and_eq_true, Bool.or_eq_true, decide_eq_true_eq] at hf
      obtain ⟨ev1, ht1, hp1, hmono1, hrep1⟩ :=
        pollOne_reports P (env 0) a { s with trace := s.trace ++ [Event.pop a] } hf.1
      obtain ⟨ev2, ht2, hmono2, hrep2⟩ := ih (fun i => env (i + 1)) _ hf.2
      have hloop : pollLoop P env (a :: rest) s
          = pollLoop P (fun i => env (i + 1)) rest
              (pollOne P (env 0) a { s with trace := s.trace ++ [Event.pop a] }) := by
        simp [pollLoop, hlt]
      rw [hloop]
      refine ⟨[Event.pop a] ++ ev1 ++ ev2, ?_, ?_, ?_⟩
      · rw [ht2, ht1]; simp
      · intro e he; exact hmono2 e (hmono1 e he)
      · intro b hb
        have hpop : popped ([Event.pop a] ++ ev1 ++ ev2) = a :: popped ev2 := by
          rw [popped_append, popped_append, hp1]; rfl
        rw [hpop] at hb
        rcases List.mem_cons.1 hb with rfl | hb
        · rcases hrep1 with ⟨v, hv⟩ | ⟨e, he, hk, hu, hto⟩
          · left
            refine ⟨v, ?_⟩
            simp only [callbacks_append, List.mem_append]
            exact Or.inl (Or.inr hv)
          · right
            exact ⟨e, hmono2 e he, hk, hu, hto⟩
        · rcases hrep2 b hb with ⟨v, hv⟩ | ⟨e, he, hk, hu, hto⟩
          · left
            refine ⟨v, ?_⟩
            simp only [callbacks_append, List.mem_append]
            exact Or.inr hv
          · right
            refine ⟨e, he, ?_, hu, hto⟩
            intro hmem
            apply hk
            obtain ⟨e', he', hke'⟩ := List.mem_map.1 hmem
            exact List.mem_map.2 ⟨e', hmono1 e' he', hke'⟩
    · refine ⟨[], by simp [pollLoop, hlt], fun e he => by simpa [pollLoop, hlt] using he,
        fun b hb => by simp [popped] at hb⟩

/-- The three run-loop operations report what they remove: every entry they remove from
the connecting map and every request they pop from the queue and do not hand on as
in-flight has its uid passed to the result callback during that operation
(`pollConnectRequest`, for which the fds that `ox_socket_create` returns are taken not to be
keys of the map, removes no entry). -/
theorem removals_reported_by_run_loop (P : Platform) (s : ThreadConnector)
    (hs : Sorted (keys s.mConnectingInfos)) :
    (∀ r : PollResult, ∃ evs, (checkConnectStatus P r s).trace = s.trace ++ evs ∧
      ∀ e ∈ s.mConnectingInfos, e ∉ (checkConnectStatus P r s).mConnectingInfos →
        ∃ v, (v, e.2.uid) ∈ callbacks evs) ∧
    (∀ now : Int, ∃ evs, (checkTimeout now s).trace = s.trace ++ evs ∧
      ∀ e ∈ s.mConnectingInfos, e ∉ (checkTimeout now s).mConnectingInfos →
        ∃ v, (v, e.2.uid) ∈ callbacks evs) ∧
    (∀ (arrived : List AsyncConnectAddr) (env : Nat → ConnectResp),
      pollFresh P env (SyncRead arrived s.mConnectRequests).reverse s = true →
      ∃ evs, (pollConnectRequest P arrived env s).trace = s.trace ++ evs ∧
        (∀ e ∈ s.mConnectingInfos, e ∈ (pollConnectRequest P arrived env s).mConnectingInfos) ∧
        (∀ a ∈ popped evs,
          (∃ v, (v, a.uid) ∈ callbacks evs) ∨
          (∃ e ∈ (pollConnectRequest P arrived env s).mConnectingInfos,
            e.1 ∉ keys s.mConnectingInfos ∧ e.2.uid = a.uid ∧ e.2.timeout = a.timeout))) := by
  refine ⟨?_, ?_, ?_⟩
  · intro r
    by_cases hp : 0 < r.ret
    · rw [checkConnectStatus_eq P r s hp hs]
      refine ⟨_, rfl, ?_⟩
      intro e he hne
      have hc : e.1 ∈ (collect P r s).complete_fds := by
        by_contra hc
        exact hne (List.mem_filter.2 ⟨he, by simpa using hc⟩)
      rw [callbacks_completeEvents]
      exact ⟨_, List.mem_map.2 ⟨e, List.mem_filter.2 ⟨he, by simpa using hc⟩, rfl⟩⟩
    · have : r.ret ≤ 0 := by omega
      simp only [checkConnectStatus, this, if_true]
      exact ⟨[], by simp, fun e he hne => absurd he hne⟩
  · intro now
    refine ⟨_, checkTimeout_trace now s, ?_⟩
    intro e he hne
    rw [checkTimeout_infos now s hs] at hne
    have hx : expired now e = true := by
      by_contra hx
      exact hne (List.mem_filter.2 ⟨he, by simpa using hx⟩)
    rw [callbacks_expiryEvents]
    exact ⟨_, List.mem_map.2 ⟨e, List.mem_filter.2 ⟨he, hx⟩, rfl⟩⟩
  · intro arrived env hf
    exact pollLoop_reports P _ env s hf

/-- The run-loop operations on the sample state: the timeout sweep at 1300 removes the
entry of fd 6 and reports its uid 22. -/
theorem removals_reported_by_run_loop_sample :
    Sorted (keys sampleState.mConnectingInfos) ∧
    ∃ evs, (checkTimeout 1300 sampleState).trace = sampleState.trace ++ evs ∧
      ∀ e ∈ sampleState.mConnectingInfos,
        e ∉ (checkTimeout 1300 sampleState).mConnectingInfos →
        ∃ v, (v, e.2.uid) ∈ callbacks evs :=
  ⟨by decide, (removals_reported_by_run_loop samplePlatform sampleState (by decide)).2.1 1300⟩

/-- C5. Every outbound connect that reaches a terminal state should be reported through
the result callback; `destroy` does not do so.  On the sample state, which the connector
reaches from the empty state by one `pollConnectRequest` and which holds the entries of
fd 5 (uid 11) and fd 6 (uid 22) in flight and the request of uid 33 in the queue, `destroy` empties the request queue, the connecting map and the in-flight set, and
leaves the trace as it was: the callback is not invoked and neither socket is closed.  The
timeout sweep, run on the same state at a time at which both entries have expired, removes
the same two entries and closes and reports each of them. -/
theorem destroy_reports_nothing :
    runOps samplePlatform ThreadConnector.init [Op.pollConnectRequest sampleRequests sampleEnv]
      = sampleState ∧
    (sampleState.mConnectingInfos
        = [(5, { startConnectTime := 1000, uid := 11, timeout := 500 }),
           (6, { startConnectTime := 1000, uid := 22, timeout := 300 })] ∧
      sampleState.mConnectRequests
        = [{ ip := "10.0.0.3", port := 80, timeout := 300, uid := 33 }] ∧
      callbacks sampleState.trace = [] ∧ closed sampleState.trace = []) ∧
    ((destroy sampleState).mConnectingInfos = [] ∧
      (destroy sampleState).mConnectingFds = [] ∧
      (destroy sampleState).mConnectRequests = [] ∧
      (destroy sampleState).trace = sampleState.trace ∧
      callbacks (destroy sampleState).trace = [] ∧
      closed (destroy sampleState).trace = []) ∧
    ((checkTimeout 1500 sampleState).mConnectingInfos = [] ∧
      (checkTimeout 1500 sampleState).mConnectingFds = [] ∧
      callbacks (checkTimeout 1500 sampleState).trace = [((-1 : Int), (11 : Int)), (-1, 22)] ∧
      closed (checkTimeout 1500 sampleState).trace = [5, 6]) := by
  decide

end Connector

namespace TcpService

/-! ## The session identifier -/

theorem length_leBytes (n v : Nat) : (leBytes n v).length = n := by
  induction n generalizing v with
  | zero => rfl
  | succ n ih => simp [leBytes, ih]

theorem leBytes_lt (n v : Nat) : ∀ b ∈ leBytes n v, b < 256 := by
  induction n generalizing v with
  | zero => intro b hb; simp [leBytes] at hb
  | succ n ih =>
    intro b hb
    simp only [leBytes, List.mem_cons] at hb
    rcases hb with rfl | hb
    · exact Nat.mod_lt _ (by norm_num)
    · exact ih _ b hb

theorem ofLeBytes_leBytes (n v : Nat) : ofLeBytes (leBytes n v) = v % 256 ^ n := by
  induction n generalizing v with
  | zero => simp [leBytes, ofLeBytes, Nat.mod_one]
  | succ n ih =>
    simp only [leBytes, ofLeBytes, ih]
    rw [pow_succ, Nat.mul_comm (256 ^ n) 256, Nat.mod_mul]

theorem leBytes_ofLeBytes (bs : List Nat) (h : ∀ b ∈ bs, b < 256) :
    leBytes bs.length (ofLeBytes bs) = bs := by
  induction bs with
  | nil => rfl
  | cons b t ih =>
    have hb : b < 256 := h b (List.mem_cons_self _ _)
    have ht := ih (fun x hx => h x (List.mem_cons_of_mem _ hx))
    simp only [List.length_cons, leBytes, ofLeBytes]
    have h1 : (b + 256 * ofLeBytes t) % 256 = b := by omega
    have h2 : (b + 256 * ofLeBytes t) / 256 = ofLeBytes t := by omega
    rw [h1, h2, ht]

theorem ofLeBytes_lt (bs : List Nat) (h : ∀ b ∈ bs, b < 256) :
    ofLeBytes bs < 256 ^ bs.length := by
  induction bs with
  | nil => simp [ofLeBytes]
  | cons b t ih =>
    have hb : b < 256 := h b (List.mem_cons_self _ _)
    have ht := ih (fun x hx => h x (List.mem_cons_of_mem _ hx))
    simp only [List.length_cons, ofLeBytes, pow_succ]
    omega

theorem length_store (be : Bool) (n v : Nat) : (store be n v).length = n := by
  unfold store; split <;> simp [length_leBytes]

theorem store_lt (be : Bool) (n v : Nat) : ∀ b ∈ store be n v, b < 256 := by
  intro b hb
  unfold store at hb
  split at hb
  · exact leBytes_lt n v b (List.mem_reverse.1 hb)
  · exact leBytes_lt n v b hb

theorem load_store (be : Bool) (n v : Nat) : load be (store be n v) = v % 256 ^ n := by
  unfold load store
  cases be <;> simp [ofLeBytes_leBytes]

theorem store_load (be : Bool) (bs : List Nat) (h : ∀ b ∈ bs, b < 256) :
    store be bs.length (load be bs) = bs := by
  unfold load store
  cases be
  · simpa using leBytes_ofLeBytes bs h
  · have := leBytes_ofLeBytes bs.reverse (fun b hb => h b (List.mem_reverse.1 hb))
    simp only [List.length_reverse] at this
    simp [this]

theorem load_lt (be : Bool) (bs : List Nat) (h : ∀ b ∈ bs, b < 256) :
    load be bs < 256 ^ bs.length := by
  unfold load
  cases be
  · simpa using ofLeBytes_lt bs h
  · have := ofLeBytes_lt bs.reverse (fun b hb => h b (List.mem_reverse.1 hb))
    simpa using this

theorem toInt64_mod (n : Nat) (h : n < 2 ^ 64) : (toInt64 n % 2 ^ 64).toNat = n := by
  unfold toInt64
  split <;> omega

/-- Writing `id` back after reading it leaves the eight bytes as they were. -/
theorem ofId_id (be : Bool) (bytes : List Nat) (hlen : bytes.length = 8)
    (h : ∀ b ∈ bytes, b < 256) :
    SessionId.ofId be (SessionId.id be bytes) = bytes := by
  unfold SessionId.ofId SessionId.id
  have hlt : load be bytes < 2 ^ 64 := by
    have := load_lt be bytes h
    rw [hlen] at this
    norm_num at this ⊢
    exact this
  rw [toInt64_mod _ hlt]
  have := store_load be bytes h
  rw [hlen] at this
  exact this

theorem length_ofData (be : Bool) (d : SessionIdData) : (SessionId.ofData be d).length = 8 := by
  simp [SessionId.ofData, length_store]

theorem ofData_lt (be : Bool) (d : SessionIdData) : ∀ b ∈ SessionId.ofData be d, b < 256 := by
  intro b hb
  simp only [SessionId.ofData, List.mem_append] at hb
  rcases hb with (hb | hb) | hb <;> exact store_lt _ _ _ b hb

/-- Reading `data` after writing its fields returns them (reduced to their widths). -/
theorem data_ofData (be : Bool) (d : SessionIdData) :
    SessionId.data be (SessionId.ofData be d)
      = { loopIndex := d.loopIndex % 65536, index := d.index % 65536, iid := d.iid % 2 ^ 32 } := by
  have t1 : (SessionId.ofData be d).take 2 = store be 2 d.loopIndex := by
    simp only [SessionId.ofData, List.append_assoc]
    rw [List.take_append_of_le_length (by simp [length_store])]
    rw [List.take_of_length_le (by simp [length_store])]
  have t2 : ((SessionId.ofData be d).drop 2).take 2 = store be 2 d.index := by
    simp only [SessionId.ofData, List.append_assoc]
    rw [List.drop_append_of_le_length (by simp [length_store])]
    rw [List.drop_of_length_le (by simp [length_store]), List.nil_append]
    rw [List.take_append_of_le_length (by simp [length_store])]
    rw [List.take_of_length_le (by simp [length_store])]
  have t3 : ((SessionId.ofData be d).drop 4).take 4 = store be 4 d.iid := by
    have h4 : (store be 2 d.loopIndex ++ store be 2 d.index).length = 4 := by
      simp [length_store]
    simp only [SessionId.ofData]
    rw [List.drop_append_of_le_length (by omega)]
    rw [List.drop_of_length_le (by omega), List.nil_append]
    rw [List.take_of_length_le (by simp [length_store])]
  simp only [SessionId.data, t1, t2, t3, load_store]
  norm_num

theorem unpack_pack (be : Bool) (d : SessionIdData) (h : d.InRange) :
    unpack be (pack be d) = d := by
  unfold unpack pack
  rw [ofId_id be _ (length_ofData be d) (ofData_lt be d), data_ofData]
  obtain ⟨h1, h2, h3⟩ := h
  cases d
  simp only [SessionIdData.mk.injEq] at *
  exact ⟨Nat.mod_eq_of_lt h1, Nat.mod_eq_of_lt h2, Nat.mod_eq_of_lt h3⟩

theorem pack_injective (be : Bool) (d d' : SessionIdData) (h : d.InRange) (h' : d'.InRange)
    (heq : pack be d = pack be d') : d = d' := by
  have := congrArg (unpack be) heq
  rwa [unpack_pack be d h, unpack_pack be d' h'] at this

/-- C6. The session identifier is a lossless packing of the triple (loop index: 16 bits,
slot index: 16 bits, generation: 32 bits) into the 64-bit `id`: the three fields of `data`
occupy two, two and four bytes, exactly the eight bytes of `id` (no overlap, no padding);
for every `loopIndex < 65536`, `index < 65536` and `iid < 2 ^ 32`, unpacking the packed id
returns the same triple, and two packed ids are equal if and only if all three fields are
equal.  This holds for either byte order. -/
theorem sessionId_lossless (bigEndian : Bool) (d d' : SessionIdData)
    (h : d.InRange) (h' : d'.InRange) :
    (store bigEndian 2 d.loopIndex).length + (store bigEndian 2 d.index).length
        + (store bigEndian 4 d.iid).length = 8 ∧
    (SessionId.ofData bigEndian d).length = (SessionId.ofId bigEndian (pack bigEndian d)).length ∧
    unpack bigEndian (pack bigEndian d) = d ∧
    (pack bigEndian d = pack bigEndian d' ↔
      d.loopIndex = d'.loopIndex ∧ d.index = d'.index ∧ d.iid = d'.iid) := by
  refine ⟨by simp [length_store], ?_, unpack_pack bigEndian d h, ?_⟩
  · simp [SessionId.ofId, length_store, length_ofData]
  · constructor
    · intro heq
      have := pack_injective bigEndian d d' h h' heq
      subst this
      exact ⟨rfl, rfl, rfl⟩
    · rintro ⟨h1, h2, h3⟩
      cases d; cases d'
      simp only at h1 h2 h3
      subst h1; subst h2; subst h3
      rfl

/-- C6 at two sample triples that differ in the generation only. -/
theorem sessionId_lossless_witness :
    (({ loopIndex := 3, index := 7, iid := 4000000000 } : SessionIdData).InRange ∧
      ({ loopIndex := 3, index := 7, iid := 1 } : SessionIdData).InRange) ∧
    unpack false (pack false { loopIndex := 3, index := 7, iid := 4000000000 })
      = { loopIndex := 3, index := 7, iid := 4000000000 } ∧
    ¬ (pack false { loopIndex := 3, index := 7, iid := 4000000000 }
        = pack false { loopIndex := 3, index := 7, iid := 1 }) :=
  ⟨⟨by decide, by decide⟩,
   (sessionId_lossless false { loopIndex := 3, index := 7, iid := 4000000000 }
      { loopIndex := 3, index := 7, iid := 1 } (by decide) (by decide)).2.2.1,
   fun heq => absurd
     (((sessionId_lossless false { loopIndex := 3, index := 7, iid := 4000000000 }
        { loopIndex := 3, index := 7, iid := 1 } (by decide) (by decide)).2.2.2.1 heq).2.2)
     (by decide)⟩

/-! ## The session identifier allocator -/

end TcpService
